import Mathlib

/-!
Verification of the markdown-to-ADF converter core (src/md2adf/converter.py).

The source walks a token tree produced by an external markdown front end and
emits an ADF document: block nodes containing inline text leaves, where each
leaf carries a flat, order-sensitive list of formatting marks.

Source tokens are dictionaries with keys "type", "raw", "attrs", "children".
Dictionary subscript access raises KeyError when the key is absent, so the
embedding models each field as an Option and every subscript access as a
match whose missing-key arm produces an error value; the converter functions
therefore live in the Except String monad.  The dict-get-with-default
accesses of the source (token.get, attrs.get) are embedded with Option.getD
and explicit matches.
-/

/-- The attribute mapping of a source token.  The converter only ever reads
the keys "level" (heading), "ordered" (list), "info" (code block) and
"url" (link, image); each is optional, mirroring dictionary lookup. -/
structure Attrs where
  level : Option Int
  ordered : Option Bool
  info : Option String
  url : Option String
deriving Repr, DecidableEq

/-- A source token: type tag, optional raw text payload, optional attribute
mapping, optional ordered child sequence (section 3 of the spec). -/
inductive Token where
  | mk (type : String) (raw : Option String) (attrs : Option Attrs) (children : Option (List Token))
deriving Repr

def Token.type : Token → String
  | .mk t _ _ _ => t

def Token.raw : Token → Option String
  | .mk _ r _ _ => r

def Token.attrs : Token → Option Attrs
  | .mk _ _ a _ => a

def Token.children : Token → Option (List Token)
  | .mk _ _ _ c => c

/-- An ADF mark.  A mark dictionary has a "type" key and, for link marks
only, an attrs dictionary holding an "href" key; the href field embeds
that nested attrs dictionary. -/
structure Mark where
  type : String
  href : Option String
deriving Repr, DecidableEq

/-- The attrs dictionary of an emitted ADF node: "level" on headings,
"language" on code blocks. -/
structure AdfAttrs where
  level : Option Int
  language : Option String
deriving Repr, DecidableEq

/-- An emitted ADF node.  Each Option field models the presence or absence
of the corresponding dictionary key ("text", "marks", "attrs", "content"). -/
inductive Adf where
  | mk (type : String) (text : Option String) (marks : Option (List Mark)) (attrs : Option AdfAttrs) (content : Option (List Adf))
deriving Repr

def Adf.type : Adf → String
  | .mk t _ _ _ _ => t

def Adf.text : Adf → Option String
  | .mk _ x _ _ _ => x

def Adf.marks : Adf → Option (List Mark)
  | .mk _ _ m _ _ => m

def Adf.attrs : Adf → Option AdfAttrs
  | .mk _ _ _ a _ => a

def Adf.content : Adf → Option (List Adf)
  | .mk _ _ _ _ c => c

/-- The top-level ADF document: version, type tag and content sequence
(converter.py lines 27 and 32). -/
structure Doc where
  version : Nat
  type : String
  content : List Adf
deriving Repr

/-- The whitespace characters stripped by the Python str.strip method
(ASCII range; the guard of convert only needs membership to be decidable). -/
def isPySpace (c : Char) : Bool :=
  c = ' ' || c = '\t' || c = '\n' || c = '\r' || c = '\x0b' || c = '\x0c'

/-- Embedding of the Python str.strip method: drop whitespace from both
ends of the string. -/
def pyStrip (s : String) : String :=
  ⟨((s.data.dropWhile isPySpace).reverse.dropWhile isPySpace).reverse⟩

/-- The alt text of an image token (converter.py lines 210 and 211): the
children key is read with default empty list; the alt text is the raw
payload of the first child when that list is non-empty, else the URL. -/
def imageAlt (children : Option (List Token)) (url : String) : Except String String :=
  match children.getD [] with
  | [] => .ok url
  | c :: _ =>
    match c.raw with
    | some alt => .ok alt
    | none => .error "KeyError"

/-- Embedding of _convert_inlines (converter.py lines 157 to 232): walk the
inline tokens carrying the accumulated mark context, emitting flat text
leaves.  The buildup of the Python result list across loop iterations is
embedded as recursion on the token list, each iteration prepending its
contribution to the converted tail. -/
def _convert_inlines : List Token → List Mark → Except String (List Adf)
  | [], _ => .ok []
  | Token.mk ty raw attrs children :: rest, marks =>
    if ty = "text" then
      -- line 179: emit the raw text with the current context, marks key
      -- present only when the context is non-empty
      match raw with
      | some r =>
        match _convert_inlines rest marks with
        | .error e => .error e
        | .ok tail =>
          .ok (Adf.mk "text" (some r) (if marks.isEmpty then none else some marks) none none :: tail)
      | none => .error "KeyError"
    else if ty = "strong" then
      -- line 185: recurse with a strong mark appended to the context
      match children with
      | some cs =>
        match _convert_inlines cs (marks ++ [Mark.mk "strong" none]) with
        | .error e => .error e
        | .ok inner =>
          match _convert_inlines rest marks with
          | .error e => .error e
          | .ok tail => .ok (inner ++ tail)
      | none => .error "KeyError"
    else if ty = "emphasis" then
      -- line 190: recurse with an em mark appended
      match children with
      | some cs =>
        match _convert_inlines cs (marks ++ [Mark.mk "em" none]) with
        | .error e => .error e
        | .ok inner =>
          match _convert_inlines rest marks with
          | .error e => .error e
          | .ok tail => .ok (inner ++ tail)
      | none => .error "KeyError"
    else if ty = "strikethrough" then
      -- line 195: recurse with a strike mark appended
      match children with
      | some cs =>
        match _convert_inlines cs (marks ++ [Mark.mk "strike" none]) with
        | .error e => .error e
        | .ok inner =>
          match _convert_inlines rest marks with
          | .error e => .error e
          | .ok tail => .ok (inner ++ tail)
      | none => .error "KeyError"
    else if ty = "link" then
      -- line 200: recurse with a link mark carrying the URL appended
      match attrs with
      | some a =>
        match a.url with
        | some u =>
          match children with
          | some cs =>
            match _convert_inlines cs (marks ++ [Mark.mk "link" (some u)]) with
            | .error e => .error e
            | .ok inner =>
              match _convert_inlines rest marks with
              | .error e => .error e
              | .ok tail => .ok (inner ++ tail)
          | none => .error "KeyError"
        | none => .error "KeyError"
      | none => .error "KeyError"
    else if ty = "image" then
      -- lines 209 to 214: degrade the image to link-styled text; the alt
      -- text computation (lines 210, 211) is the helper imageAlt
      match attrs with
      | some a =>
        match a.url with
        | some url =>
          match imageAlt children url with
          | .error e => .error e
          | .ok alt =>
            match _convert_inlines rest marks with
            | .error e => .error e
            | .ok tail =>
              .ok (Adf.mk "text" (some alt) (some (marks ++ [Mark.mk "link" (some url)])) none none :: tail)
        | none => .error "KeyError"
      | none => .error "KeyError"
    else if ty = "codespan" then
      -- line 216: the code mark is appended unconditionally, so the marks
      -- key is always present on a code span leaf
      match raw with
      | some r =>
        match _convert_inlines rest marks with
        | .error e => .error e
        | .ok tail =>
          .ok (Adf.mk "text" (some r) (some (marks ++ [Mark.mk "code" none])) none none :: tail)
      | none => .error "KeyError"
    else if ty = "softbreak" then
      -- line 221: a soft break becomes a single-space text leaf
      match _convert_inlines rest marks with
      | .error e => .error e
      | .ok tail =>
        .ok (Adf.mk "text" (some " ") (if marks.isEmpty then none else some marks) none none :: tail)
    else if ty = "linebreak" then
      -- line 229: a hard break node, never carrying marks
      match _convert_inlines rest marks with
      | .error e => .error e
      | .ok tail => .ok (Adf.mk "hardBreak" none none none none :: tail)
    else
      -- unrecognized inline type: contributes nothing
      _convert_inlines rest marks
termination_by cs _ => sizeOf cs

mutual

/-- Embedding of _convert_blocks (converter.py lines 35 to 45).  The source
appends a non-None result and extends by a list result; _convert_block in
fact returns a single node or None on every branch (it never returns a bare
list), so the result is embedded as an Option whose toList is appended. -/
def _convert_blocks : List Token → Except String (List Adf)
  | [] => .ok []
  | t :: rest =>
    match _convert_block t with
    | .error e => .error e
    | .ok node =>
      match _convert_blocks rest with
      | .error e => .error e
      | .ok tail => .ok (node.toList ++ tail)
termination_by ts => (sizeOf ts, 1)

/-- Embedding of _convert_block (converter.py lines 48 to 97): convert a
single block token to an ADF node, or to nothing. -/
def _convert_block : Token → Except String (Option Adf)
  | Token.mk ty raw attrs children =>
    if ty = "paragraph" then
      -- line 52: drop the paragraph when its inline content is empty
      match children with
      | some cs =>
        match _convert_inlines cs [] with
        | .error e => .error e
        | .ok content =>
          .ok (if content.isEmpty then none
               else some (Adf.mk "paragraph" none none none (some content)))
      | none => .error "KeyError"
    else if ty = "heading" then
      -- line 58: keep the node even when textless; content key only when
      -- the inline conversion is non-empty
      match attrs with
      | some a =>
        match a.level with
        | some level =>
          match children with
          | some cs =>
            match _convert_inlines cs [] with
            | .error e => .error e
            | .ok content =>
              .ok (some (Adf.mk "heading" none none (some (AdfAttrs.mk (some level) none))
                    (if content.isEmpty then none else some content)))
          | none => .error "KeyError"
        | none => .error "KeyError"
      | none => .error "KeyError"
    else if ty = "block_code" then
      -- line 66: raw and info are read with dict-get defaults; the attrs
      -- key is set only when the info string is present and non-empty
      let raw' := raw.getD ""
      let info := match attrs with | some a => a.info | none => none
      .ok (some (Adf.mk "codeBlock" none none
            (match info with
             | some s => if s = "" then none else some (AdfAttrs.mk none (some s))
             | none => none)
            (some [Adf.mk "text" (some raw') none none none])))
    else if ty = "block_quote" then
      -- line 75: drop the blockquote when its block content is empty
      match children with
      | some cs =>
        match _convert_blocks cs with
        | .error e => .error e
        | .ok content =>
          .ok (if content.isEmpty then none
               else some (Adf.mk "blockquote" none none none (some content)))
      | none => .error "KeyError"
    else if ty = "list" then
      -- line 81: the ordered flag picks the list variant; non-list_item
      -- children are skipped inside _list_items
      match attrs with
      | some a =>
        let list_variant := if a.ordered.getD false then "orderedList" else "bulletList"
        match children with
        | some cs =>
          match _list_items cs with
          | .error e => .error e
          | .ok items => .ok (some (Adf.mk list_variant none none none (some items)))
        | none => .error "KeyError"
      | none => .error "KeyError"
    else if ty = "thematic_break" then
      -- line 91
      .ok (some (Adf.mk "rule" none none none none))
    else if ty = "table" then
      -- line 94
      match _convert_table (Token.mk ty raw attrs children) with
      | .error e => .error e
      | .ok node => .ok (some node)
    else
      -- line 97: unrecognized block type, silently dropped
      .ok none
termination_by t => (sizeOf t, 1)

/-- Embedding of the loop of the list branch (converter.py lines 84 to 88):
children of a list token whose type is list_item are converted and wrapped
as listItem; other children are skipped. -/
def _list_items : List Token → Except String (List Adf)
  | [] => .ok []
  | child :: rest =>
    if child.type = "list_item" then
      match _convert_list_item child with
      | .error e => .error e
      | .ok item_content =>
        match _list_items rest with
        | .error e => .error e
        | .ok tail => .ok (Adf.mk "listItem" none none none (some item_content) :: tail)
    else
      _list_items rest
termination_by ts => (sizeOf ts, 1)

/-- Embedding of _convert_list_item (converter.py lines 100 to 125). -/
def _convert_list_item : Token → Except String (List Adf)
  | Token.mk _ _ _ children =>
    match children with
    | some cs => _li_children cs
    | none => .error "KeyError"
termination_by t => (sizeOf t, 1)

/-- Embedding of the loop of _convert_list_item (converter.py lines 107 to
124): block_text and paragraph children are paragraph-wrapped when their
inline conversion is non-empty; a nested list child is block-converted and
appended directly (line 117 appends the returned node unconditionally, and
a list token never converts to None, see convert_block_list_shape); any
other child is block-converted and its optional result appended. -/
def _li_children : List Token → Except String (List Adf)
  | [] => .ok []
  | Token.mk ty raw attrs gchildren :: rest =>
    if ty = "block_text" then
      match gchildren with
      | some gs =>
        match _convert_inlines gs [] with
        | .error e => .error e
        | .ok content =>
          match _li_children rest with
          | .error e => .error e
          | .ok tail =>
            .ok ((if content.isEmpty then []
                  else [Adf.mk "paragraph" none none none (some content)]) ++ tail)
      | none => .error "KeyError"
    else if ty = "paragraph" then
      match gchildren with
      | some gs =>
        match _convert_inlines gs [] with
        | .error e => .error e
        | .ok content =>
          match _li_children rest with
          | .error e => .error e
          | .ok tail =>
            .ok ((if content.isEmpty then []
                  else [Adf.mk "paragraph" none none none (some content)]) ++ tail)
      | none => .error "KeyError"
    else if ty = "list" then
      match _convert_block (Token.mk ty raw attrs gchildren) with
      | .error e => .error e
      | .ok b =>
        match _li_children rest with
        | .error e => .error e
        | .ok tail => .ok (b.toList ++ tail)
    else
      match _convert_block (Token.mk ty raw attrs gchildren) with
      | .error e => .error e
      | .ok b =>
        match _li_children rest with
        | .error e => .error e
        | .ok tail => .ok (b.toList ++ tail)
termination_by ts => (sizeOf ts, 1)

/-- Embedding of _convert_table (converter.py lines 128 to 154). -/
def _convert_table : Token → Except String Adf
  | Token.mk _ _ _ children =>
    match children with
    | some cs =>
      match _table_rows cs with
      | .error e => .error e
      | .ok rows => .ok (Adf.mk "table" none none none (some rows))
    | none => .error "KeyError"

/-- Embedding of the loop of _convert_table (converter.py lines 131 to
152): a table_head child contributes one header row, a table_body child
contributes its rows in source order, any other child is skipped. -/
def _table_rows : List Token → Except String (List Adf)
  | [] => .ok []
  | Token.mk ty _ _ gchildren :: rest =>
    if ty = "table_head" then
      match gchildren with
      | some cellToks =>
        match _head_cells cellToks with
        | .error e => .error e
        | .ok cells =>
          match _table_rows rest with
          | .error e => .error e
          | .ok tail => .ok (Adf.mk "tableRow" none none none (some cells) :: tail)
      | none => .error "KeyError"
    else if ty = "table_body" then
      match gchildren with
      | some rowToks =>
        match _body_rows rowToks with
        | .error e => .error e
        | .ok rws =>
          match _table_rows rest with
          | .error e => .error e
          | .ok tail => .ok (rws ++ tail)
      | none => .error "KeyError"
    else
      _table_rows rest
termination_by ts => (sizeOf ts, 1)

/-- Embedding of the header-cell loop (converter.py lines 134 to 140): each
cell wraps its inline conversion in a paragraph whose content key is always
present (the source writes cell_content or the empty list, which is the
empty list exactly when the conversion is empty). -/
def _head_cells : List Token → Except String (List Adf)
  | [] => .ok []
  | Token.mk _ _ _ gchildren :: rest =>
    match gchildren with
    | some gs =>
      match _convert_inlines gs [] with
      | .error e => .error e
      | .ok cell_content =>
        match _head_cells rest with
        | .error e => .error e
        | .ok tail =>
          .ok (Adf.mk "tableHeader" none none none
                (some [Adf.mk "paragraph" none none none (some cell_content)]) :: tail)
    | none => .error "KeyError"
termination_by ts => (sizeOf ts, 1)

/-- Embedding of the body-row loop (converter.py lines 144 to 152). -/
def _body_rows : List Token → Except String (List Adf)
  | [] => .ok []
  | Token.mk _ _ _ gchildren :: rest =>
    match gchildren with
    | some cellToks =>
      match _body_cells cellToks with
      | .error e => .error e
      | .ok cells =>
        match _body_rows rest with
        | .error e => .error e
        | .ok tail => .ok (Adf.mk "tableRow" none none none (some cells) :: tail)
    | none => .error "KeyError"
termination_by ts => (sizeOf ts, 1)

/-- Embedding of the body-cell loop (converter.py lines 146 to 151),
identical to the header-cell loop but emitting tableCell. -/
def _body_cells : List Token → Except String (List Adf)
  | [] => .ok []
  | Token.mk _ _ _ gchildren :: rest =>
    match gchildren with
    | some gs =>
      match _convert_inlines gs [] with
      | .error e => .error e
      | .ok cell_content =>
        match _body_cells rest with
        | .error e => .error e
        | .ok tail =>
          .ok (Adf.mk "tableCell" none none none
                (some [Adf.mk "paragraph" none none none (some cell_content)]) :: tail)
    | none => .error "KeyError"
termination_by ts => (sizeOf ts, 1)

end

/-- Embedding of convert (converter.py lines 17 to 32).  The external
markdown front end is a parameter; on empty or whitespace-only input the
empty document shell is returned without consulting it. -/
def convert (parse : String → List Token) (markdown : String) : Except String Doc :=
  if markdown = "" ∨ pyStrip markdown = "" then
    .ok (Doc.mk 1 "doc" [])
  else
    match _convert_blocks (parse markdown) with
    | .error e => .error e
    | .ok content => .ok (Doc.mk 1 "doc" content)

/-!
Branch-level equations for the converter functions: one rewriting lemma per
source branch, each mentioning only the recursive calls of its own branch,
so that concrete inputs evaluate branch by branch.
-/

theorem inlines_nil (ms : List Mark) : _convert_inlines [] ms = .ok [] := by
  simp [_convert_inlines]

theorem inlines_text (r : String) (attrs : Option Attrs) (children : Option (List Token))
    (rest : List Token) (ms : List Mark) :
    _convert_inlines (Token.mk "text" (some r) attrs children :: rest) ms =
      match _convert_inlines rest ms with
      | .error e => .error e
      | .ok tail =>
        .ok (Adf.mk "text" (some r) (if ms.isEmpty then none else some ms) none none :: tail) := by
  cases attrs <;> cases children <;> simp [_convert_inlines]

theorem inlines_strong (raw : Option String) (attrs : Option Attrs)
    (cs rest : List Token) (ms : List Mark) :
    _convert_inlines (Token.mk "strong" raw attrs (some cs) :: rest) ms =
      match _convert_inlines cs (ms ++ [Mark.mk "strong" none]) with
      | .error e => .error e
      | .ok inner =>
        match _convert_inlines rest ms with
        | .error e => .error e
        | .ok tail => .ok (inner ++ tail) := by
  cases raw <;> cases attrs <;> simp [_convert_inlines]

theorem inlines_emphasis (raw : Option String) (attrs : Option Attrs)
    (cs rest : List Token) (ms : List Mark) :
    _convert_inlines (Token.mk "emphasis" raw attrs (some cs) :: rest) ms =
      match _convert_inlines cs (ms ++ [Mark.mk "em" none]) with
      | .error e => .error e
      | .ok inner =>
        match _convert_inlines rest ms with
        | .error e => .error e
        | .ok tail => .ok (inner ++ tail) := by
  cases raw <;> cases attrs <;> simp [_convert_inlines]

theorem inlines_strikethrough (raw : Option String) (attrs : Option Attrs)
    (cs rest : List Token) (ms : List Mark) :
    _convert_inlines (Token.mk "strikethrough" raw attrs (some cs) :: rest) ms =
      match _convert_inlines cs (ms ++ [Mark.mk "strike" none]) with
      | .error e => .error e
      | .ok inner =>
        match _convert_inlines rest ms with
        | .error e => .error e
        | .ok tail => .ok (inner ++ tail) := by
  cases raw <;> cases attrs <;> simp [_convert_inlines]

theorem inlines_link (raw : Option String) (lv : Option Int) (od : Option Bool)
    (inf : Option String) (u : String) (cs rest : List Token) (ms : List Mark) :
    _convert_inlines (Token.mk "link" raw (some (Attrs.mk lv od inf (some u))) (some cs) :: rest) ms =
      match _convert_inlines cs (ms ++ [Mark.mk "link" (some u)]) with
      | .error e => .error e
      | .ok inner =>
        match _convert_inlines rest ms with
        | .error e => .error e
        | .ok tail => .ok (inner ++ tail) := by
  cases raw <;> simp [_convert_inlines]

theorem inlines_image_no_children (raw : Option String) (lv : Option Int) (od : Option Bool)
    (inf : Option String) (u : String) (rest : List Token) (ms : List Mark) :
    _convert_inlines (Token.mk "image" raw (some (Attrs.mk lv od inf (some u))) none :: rest) ms =
      match _convert_inlines rest ms with
      | .error e => .error e
      | .ok tail =>
        .ok (Adf.mk "text" (some u) (some (ms ++ [Mark.mk "link" (some u)])) none none :: tail) := by
  cases raw <;> simp [_convert_inlines, imageAlt]

theorem inlines_image_empty_children (raw : Option String) (lv : Option Int) (od : Option Bool)
    (inf : Option String) (u : String) (rest : List Token) (ms : List Mark) :
    _convert_inlines (Token.mk "image" raw (some (Attrs.mk lv od inf (some u))) (some []) :: rest) ms =
      match _convert_inlines rest ms with
      | .error e => .error e
      | .ok tail =>
        .ok (Adf.mk "text" (some u) (some (ms ++ [Mark.mk "link" (some u)])) none none :: tail) := by
  cases raw <;> simp [_convert_inlines, imageAlt]

theorem inlines_image_child (raw : Option String) (lv : Option Int) (od : Option Bool)
    (inf : Option String) (u : String) (c : Token) (more rest : List Token) (ms : List Mark) :
    _convert_inlines (Token.mk "image" raw (some (Attrs.mk lv od inf (some u))) (some (c :: more)) :: rest) ms =
      match c.raw with
      | some alt =>
        (match _convert_inlines rest ms with
         | .error e => .error e
         | .ok tail =>
           .ok (Adf.mk "text" (some alt) (some (ms ++ [Mark.mk "link" (some u)])) none none :: tail))
      | none => .error "KeyError" := by
  obtain ⟨cty, craw, ca, cc⟩ := c
  cases raw <;> cases craw <;> simp [_convert_inlines, imageAlt, Token.raw]

theorem inlines_codespan (r : String) (attrs : Option Attrs) (children : Option (List Token))
    (rest : List Token) (ms : List Mark) :
    _convert_inlines (Token.mk "codespan" (some r) attrs children :: rest) ms =
      match _convert_inlines rest ms with
      | .error e => .error e
      | .ok tail =>
        .ok (Adf.mk "text" (some r) (some (ms ++ [Mark.mk "code" none])) none none :: tail) := by
  cases attrs <;> cases children <;> simp [_convert_inlines]

theorem inlines_softbreak (raw : Option String) (attrs : Option Attrs)
    (children : Option (List Token)) (rest : List Token) (ms : List Mark) :
    _convert_inlines (Token.mk "softbreak" raw attrs children :: rest) ms =
      match _convert_inlines rest ms with
      | .error e => .error e
      | .ok tail =>
        .ok (Adf.mk "text" (some " ") (if ms.isEmpty then none else some ms) none none :: tail) := by
  cases raw <;> cases attrs <;> cases children <;> simp [_convert_inlines]

theorem inlines_linebreak (raw : Option String) (attrs : Option Attrs)
    (children : Option (List Token)) (rest : List Token) (ms : List Mark) :
    _convert_inlines (Token.mk "linebreak" raw attrs children :: rest) ms =
      match _convert_inlines rest ms with
      | .error e => .error e
      | .ok tail => .ok (Adf.mk "hardBreak" none none none none :: tail) := by
  cases raw <;> cases attrs <;> cases children <;> simp [_convert_inlines]

/-- The inline type tags the converter recognizes. -/
def inlineTypes : List String :=
  ["text", "strong", "emphasis", "strikethrough", "link", "image", "codespan", "softbreak", "linebreak"]

theorem inlines_unknown (ty : String) (raw : Option String) (attrs : Option Attrs)
    (children : Option (List Token)) (rest : List Token) (ms : List Mark)
    (h : ty ∉ inlineTypes) :
    _convert_inlines (Token.mk ty raw attrs children :: rest) ms = _convert_inlines rest ms := by
  simp [inlineTypes] at h
  obtain ⟨h1, h2, h3, h4, h5, h6, h7, h8, h9⟩ := h
  cases raw <;> cases attrs <;> cases children <;>
    simp [_convert_inlines, h1, h2, h3, h4, h5, h6, h7, h8, h9]

theorem blocks_nil : _convert_blocks [] = .ok [] := by
  simp [_convert_blocks]

theorem blocks_cons (t : Token) (rest : List Token) :
    _convert_blocks (t :: rest) =
      match _convert_block t with
      | .error e => .error e
      | .ok node =>
        match _convert_blocks rest with
        | .error e => .error e
        | .ok tail => .ok (node.toList ++ tail) := by
  simp [_convert_blocks]

theorem block_paragraph (raw : Option String) (attrs : Option Attrs) (cs : List Token) :
    _convert_block (Token.mk "paragraph" raw attrs (some cs)) =
      match _convert_inlines cs [] with
      | .error e => .error e
      | .ok content =>
        .ok (if content.isEmpty then none
             else some (Adf.mk "paragraph" none none none (some content))) := by
  cases raw <;> cases attrs <;> simp [_convert_block]

theorem block_heading (raw : Option String) (level : Int) (od : Option Bool)
    (inf : Option String) (url : Option String) (cs : List Token) :
    _convert_block (Token.mk "heading" raw (some (Attrs.mk (some level) od inf url)) (some cs)) =
      match _convert_inlines cs [] with
      | .error e => .error e
      | .ok content =>
        .ok (some (Adf.mk "heading" none none (some (AdfAttrs.mk (some level) none))
              (if content.isEmpty then none else some content))) := by
  cases raw <;> simp [_convert_block]

theorem block_code_eq (raw : Option String) (attrs : Option Attrs) (children : Option (List Token)) :
    _convert_block (Token.mk "block_code" raw attrs children) =
      .ok (some (Adf.mk "codeBlock" none none
            (match (match attrs with | some a => a.info | none => none) with
             | some s => if s = "" then none else some (AdfAttrs.mk none (some s))
             | none => none)
            (some [Adf.mk "text" (some (raw.getD "")) none none none]))) := by
  cases raw <;> cases attrs <;> cases children <;> simp [_convert_block]

theorem block_quote_eq (raw : Option String) (attrs : Option Attrs) (cs : List Token) :
    _convert_block (Token.mk "block_quote" raw attrs (some cs)) =
      match _convert_blocks cs with
      | .error e => .error e
      | .ok content =>
        .ok (if content.isEmpty then none
             else some (Adf.mk "blockquote" none none none (some content))) := by
  cases raw <;> cases attrs <;> simp [_convert_block]

theorem block_list (raw : Option String) (a : Attrs) (cs : List Token) :
    _convert_block (Token.mk "list" raw (some a) (some cs)) =
      match _list_items cs with
      | .error e => .error e
      | .ok items =>
        .ok (some (Adf.mk (if a.ordered.getD false then "orderedList" else "bulletList")
              none none none (some items))) := by
  cases raw <;> simp [_convert_block]

theorem block_thematic (raw : Option String) (attrs : Option Attrs) (children : Option (List Token)) :
    _convert_block (Token.mk "thematic_break" raw attrs children) =
      .ok (some (Adf.mk "rule" none none none none)) := by
  cases raw <;> cases attrs <;> cases children <;> simp [_convert_block]

theorem block_table (raw : Option String) (attrs : Option Attrs) (children : Option (List Token)) :
    _convert_block (Token.mk "table" raw attrs children) =
      match _convert_table (Token.mk "table" raw attrs children) with
      | .error e => .error e
      | .ok node => .ok (some node) := by
  cases raw <;> cases attrs <;> cases children <;> simp [_convert_block]

/-- The block type tags the converter recognizes. -/
def blockTypes : List String :=
  ["paragraph", "heading", "block_code", "block_quote", "list", "thematic_break", "table"]

theorem block_unknown (ty : String) (raw : Option String) (attrs : Option Attrs)
    (children : Option (List Token)) (h : ty ∉ blockTypes) :
    _convert_block (Token.mk ty raw attrs children) = .ok none := by
  simp [blockTypes] at h
  obtain ⟨h1, h2, h3, h4, h5, h6, h7⟩ := h
  cases raw <;> cases attrs <;> cases children <;>
    simp [_convert_block, h1, h2, h3, h4, h5, h6, h7]

theorem list_items_nil : _list_items [] = .ok [] := by
  simp [_list_items]

theorem list_items_cons (t : Token) (rest : List Token) :
    _list_items (t :: rest) =
      if t.type = "list_item" then
        match _convert_list_item t with
        | .error e => .error e
        | .ok item_content =>
          match _list_items rest with
          | .error e => .error e
          | .ok tail => .ok (Adf.mk "listItem" none none none (some item_content) :: tail)
      else _list_items rest := by
  simp [_list_items]

theorem list_item_eq (ty : String) (raw : Option String) (attrs : Option Attrs) (cs : List Token) :
    _convert_list_item (Token.mk ty raw attrs (some cs)) = _li_children cs := by
  simp [_convert_list_item]

theorem li_nil : _li_children [] = .ok [] := by
  simp [_li_children]

theorem li_block_text (raw : Option String) (attrs : Option Attrs) (gs : List Token)
    (rest : List Token) :
    _li_children (Token.mk "block_text" raw attrs (some gs) :: rest) =
      match _convert_inlines gs [] with
      | .error e => .error e
      | .ok content =>
        match _li_children rest with
        | .error e => .error e
        | .ok tail =>
          .ok ((if content.isEmpty then []
                else [Adf.mk "paragraph" none none none (some content)]) ++ tail) := by
  cases raw <;> cases attrs <;> simp [_li_children]

theorem li_paragraph (raw : Option String) (attrs : Option Attrs) (gs : List Token)
    (rest : List Token) :
    _li_children (Token.mk "paragraph" raw attrs (some gs) :: rest) =
      match _convert_inlines gs [] with
      | .error e => .error e
      | .ok content =>
        match _li_children rest with
        | .error e => .error e
        | .ok tail =>
          .ok ((if content.isEmpty then []
                else [Adf.mk "paragraph" none none none (some content)]) ++ tail) := by
  cases raw <;> cases attrs <;> simp [_li_children]

theorem li_block_child (ty : String) (raw : Option String) (attrs : Option Attrs)
    (gchildren : Option (List Token)) (rest : List Token)
    (h1 : ty ≠ "block_text") (h2 : ty ≠ "paragraph") :
    _li_children (Token.mk ty raw attrs gchildren :: rest) =
      match _convert_block (Token.mk ty raw attrs gchildren) with
      | .error e => .error e
      | .ok b =>
        match _li_children rest with
        | .error e => .error e
        | .ok tail => .ok (b.toList ++ tail) := by
  by_cases h3 : ty = "list" <;>
    cases raw <;> cases attrs <;> cases gchildren <;>
      simp [_li_children, h1, h2, h3]

theorem table_eq (ty : String) (raw : Option String) (attrs : Option Attrs) (cs : List Token) :
    _convert_table (Token.mk ty raw attrs (some cs)) =
      match _table_rows cs with
      | .error e => .error e
      | .ok rows => .ok (Adf.mk "table" none none none (some rows)) := by
  simp [_convert_table]

theorem trows_nil : _table_rows [] = .ok [] := by
  simp [_table_rows]

theorem trows_head (raw : Option String) (attrs : Option Attrs) (cellToks : List Token)
    (rest : List Token) :
    _table_rows (Token.mk "table_head" raw attrs (some cellToks) :: rest) =
      match _head_cells cellToks with
      | .error e => .error e
      | .ok cells =>
        match _table_rows rest with
        | .error e => .error e
        | .ok tail => .ok (Adf.mk "tableRow" none none none (some cells) :: tail) := by
  cases raw <;> cases attrs <;> simp [_table_rows]

theorem trows_body (raw : Option String) (attrs : Option Attrs) (rowToks : List Token)
    (rest : List Token) :
    _table_rows (Token.mk "table_body" raw attrs (some rowToks) :: rest) =
      match _body_rows rowToks with
      | .error e => .error e
      | .ok rws =>
        match _table_rows rest with
        | .error e => .error e
        | .ok tail => .ok (rws ++ tail) := by
  cases raw <;> cases attrs <;> simp [_table_rows]

theorem trows_skip (ty : String) (raw : Option String) (attrs : Option Attrs)
    (gchildren : Option (List Token)) (rest : List Token)
    (h1 : ty ≠ "table_head") (h2 : ty ≠ "table_body") :
    _table_rows (Token.mk ty raw attrs gchildren :: rest) = _table_rows rest := by
  cases raw <;> cases attrs <;> cases gchildren <;> simp [_table_rows, h1, h2]

theorem hcells_nil : _head_cells [] = .ok [] := by
  simp [_head_cells]

theorem hcells_cons (ty : String) (raw : Option String) (attrs : Option Attrs)
    (gs : List Token) (rest : List Token) :
    _head_cells (Token.mk ty raw attrs (some gs) :: rest) =
      match _convert_inlines gs [] with
      | .error e => .error e
      | .ok cell_content =>
        match _head_cells rest with
        | .error e => .error e
        | .ok tail =>
          .ok (Adf.mk "tableHeader" none none none
                (some [Adf.mk "paragraph" none none none (some cell_content)]) :: tail) := by
  simp [_head_cells]

theorem brows_nil : _body_rows [] = .ok [] := by
  simp [_body_rows]

theorem brows_cons (ty : String) (raw : Option String) (attrs : Option Attrs)
    (cellToks : List Token) (rest : List Token) :
    _body_rows (Token.mk ty raw attrs (some cellToks) :: rest) =
      match _body_cells cellToks with
      | .error e => .error e
      | .ok cells =>
        match _body_rows rest with
        | .error e => .error e
        | .ok tail => .ok (Adf.mk "tableRow" none none none (some cells) :: tail) := by
  simp [_body_rows]

theorem bcells_nil : _body_cells [] = .ok [] := by
  simp [_body_cells]

theorem bcells_cons (ty : String) (raw : Option String) (attrs : Option Attrs)
    (gs : List Token) (rest : List Token) :
    _body_cells (Token.mk ty raw attrs (some gs) :: rest) =
      match _convert_inlines gs [] with
      | .error e => .error e
      | .ok cell_content =>
        match _body_cells rest with
        | .error e => .error e
        | .ok tail =>
          .ok (Adf.mk "tableCell" none none none
                (some [Adf.mk "paragraph" none none none (some cell_content)]) :: tail) := by
  simp [_body_cells]

theorem pyStrip_all_space (s : String) (h : s.data.all isPySpace = true) : pyStrip s = "" := by
  unfold pyStrip
  have h1 : s.data.dropWhile isPySpace = [] := by
    rw [List.dropWhile_eq_nil_iff]
    intro x hx
    exact List.all_eq_true.mp h x hx
  rw [h1]
  rfl

/-- Claim C2: for every input string that is empty or consists only of
whitespace, convert returns the document with version 1, type doc and empty
content; the result does not depend on the parsing front end, which
formalizes that the front end is never consulted. -/
theorem claim_C2_empty_input (parse : String → List Token) (s : String)
    (h : s.data.all isPySpace = true) :
    convert parse s = .ok (Doc.mk 1 "doc" []) := by
  rw [convert, if_pos]
  exact Or.inr (pyStrip_all_space s h)

theorem claim_C2_witness :
    ("  \n ".data.all isPySpace = true) ∧
      convert (fun _ => [Token.mk "paragraph" none none (some [])]) "  \n " =
        .ok (Doc.mk 1 "doc" []) :=
  ⟨by decide, claim_C2_empty_input _ "  \n " (by decide)⟩

/-- Claim C3: a code-span leaf flattened under any accumulated mark context
emits a text InlineNode carrying the raw code text whose marks equal the
context with a code mark appended at the end; the marks key is present and
its sequence non-empty even when the context is empty. -/
theorem claim_C3_codespan (r : String) (attrs : Option Attrs) (children : Option (List Token))
    (rest : List Token) (ms : List Mark) :
    _convert_inlines (Token.mk "codespan" (some r) attrs children :: rest) ms =
      (match _convert_inlines rest ms with
       | .error e => .error e
       | .ok tail =>
         .ok (Adf.mk "text" (some r) (some (ms ++ [Mark.mk "code" none])) none none :: tail))
    ∧ ms ++ [Mark.mk "code" none] ≠ [] := by
  refine ⟨inlines_codespan r attrs children rest ms, ?_⟩
  simp

/-- Claim C9: an image leaf flattened under any accumulated mark context
contributes exactly one text InlineNode; its text is the raw payload of the
first child of the image, or the image URL itself when the image has no
children (absent or empty child sequence), and its marks are the current
context with a link mark carrying the image URL appended at the end. -/
theorem claim_C9_image (raw : Option String) (lv : Option Int) (od : Option Bool)
    (inf : Option String) (u : String) (c : Token) (more rest : List Token) (ms : List Mark) :
    (_convert_inlines (Token.mk "image" raw (some (Attrs.mk lv od inf (some u))) none :: rest) ms =
      match _convert_inlines rest ms with
      | .error e => .error e
      | .ok tail =>
        .ok (Adf.mk "text" (some u) (some (ms ++ [Mark.mk "link" (some u)])) none none :: tail))
    ∧ (_convert_inlines (Token.mk "image" raw (some (Attrs.mk lv od inf (some u))) (some []) :: rest) ms =
      match _convert_inlines rest ms with
      | .error e => .error e
      | .ok tail =>
        .ok (Adf.mk "text" (some u) (some (ms ++ [Mark.mk "link" (some u)])) none none :: tail))
    ∧ (_convert_inlines (Token.mk "image" raw (some (Attrs.mk lv od inf (some u))) (some (c :: more)) :: rest) ms =
      match c.raw with
      | some alt =>
        (match _convert_inlines rest ms with
         | .error e => .error e
         | .ok tail =>
           .ok (Adf.mk "text" (some alt) (some (ms ++ [Mark.mk "link" (some u)])) none none :: tail))
      | none => .error "KeyError") :=
  ⟨inlines_image_no_children raw lv od inf u rest ms,
   inlines_image_empty_children raw lv od inf u rest ms,
   inlines_image_child raw lv od inf u c more rest ms⟩

/-- Claim C8: a table cell, header or body, whose inline conversion yields
no nodes still emits its tableHeader or tableCell wrapping a paragraph
whose content key is present and holds the empty sequence; the cell itself
is never omitted. -/
theorem claim_C8_empty_cell (ty : String) (raw : Option String) (attrs : Option Attrs)
    (gs rest : List Token) (h : _convert_inlines gs [] = .ok []) :
    (_head_cells (Token.mk ty raw attrs (some gs) :: rest) =
      match _head_cells rest with
      | .error e => .error e
      | .ok tail =>
        .ok (Adf.mk "tableHeader" none none none
              (some [Adf.mk "paragraph" none none none (some [])]) :: tail))
    ∧ (_body_cells (Token.mk ty raw attrs (some gs) :: rest) =
      match _body_cells rest with
      | .error e => .error e
      | .ok tail =>
        .ok (Adf.mk "tableCell" none none none
              (some [Adf.mk "paragraph" none none none (some [])]) :: tail)) := by
  rw [hcells_cons ty raw attrs gs rest, bcells_cons ty raw attrs gs rest, h]
  exact ⟨rfl, rfl⟩

theorem claim_C8_witness :
    _head_cells [Token.mk "c" none none (some [])] =
        .ok [Adf.mk "tableHeader" none none none
              (some [Adf.mk "paragraph" none none none (some [])])] ∧
      _body_cells [Token.mk "c" none none (some [])] =
        .ok [Adf.mk "tableCell" none none none
              (some [Adf.mk "paragraph" none none none (some [])])] := by
  have h := claim_C8_empty_cell "c" none none [] [] (inlines_nil [])
  simpa only [hcells_nil, bcells_nil] using h

/-- Claim C10: inside a list item, a block_text child or a paragraph child
whose inline conversion yields no nodes contributes nothing to the content
of the item; no empty paragraph node is emitted inside a list item. -/
theorem claim_C10_empty_li_child (r0 r1 : Option String) (a0 a1 : Option Attrs)
    (gs rest : List Token) (h : _convert_inlines gs [] = .ok []) :
    (_convert_list_item (Token.mk "list_item" r0 a0
        (some (Token.mk "block_text" r1 a1 (some gs) :: rest))) =
      _convert_list_item (Token.mk "list_item" r0 a0 (some rest)))
    ∧ (_convert_list_item (Token.mk "list_item" r0 a0
        (some (Token.mk "paragraph" r1 a1 (some gs) :: rest))) =
      _convert_list_item (Token.mk "list_item" r0 a0 (some rest))) := by
  rw [list_item_eq, list_item_eq, list_item_eq, li_block_text, li_paragraph, h]
  constructor <;>
    · cases h2 : _li_children rest <;> simp

theorem claim_C10_witness :
    _convert_list_item (Token.mk "list_item" none none
        (some [Token.mk "block_text" none none (some [])])) = .ok [] ∧
      _convert_list_item (Token.mk "list_item" none none
        (some [Token.mk "paragraph" none none (some [])])) = .ok [] := by
  have h := claim_C10_empty_li_child none none none none [] [] (inlines_nil [])
  simpa only [list_item_eq, li_nil] using h

theorem convert_block_list_shape (raw : Option String) (attrs : Option Attrs)
    (children : Option (List Token)) (res : Option Adf)
    (h : _convert_block (Token.mk "list" raw attrs children) = .ok res) :
    ∃ n, res = some n ∧ (n.type = "bulletList" ∨ n.type = "orderedList") := by
  cases attrs with
  | none => cases raw <;> cases children <;> simp [_convert_block] at h
  | some a =>
    cases children with
    | none => cases raw <;> simp [_convert_block] at h
    | some cs =>
      rw [block_list] at h
      cases hi : _list_items cs with
      | error e => rw [hi] at h; exact absurd h (by simp)
      | ok items =>
        rw [hi] at h
        simp only [Except.ok.injEq] at h
        cases hb : a.ordered.getD false with
        | false =>
          rw [hb] at h
          exact ⟨_, h.symm, Or.inl (by simp [Adf.type])⟩
        | true =>
          rw [hb] at h
          exact ⟨_, h.symm, Or.inr (by simp [Adf.type])⟩

/-- Claim C5: inside a list item, a block_text child (tight inline content)
and a paragraph child are converted identically, by inline-converting their
children and wrapping in a paragraph node, so tight and loose items yield
the same shape; a child that is itself a nested list is block-converted and
its resulting bulletList or orderedList node is appended as a sibling entry
of the item content, not re-wrapped in a paragraph. -/
theorem claim_C5_list_item (r0 r1 r2 : Option String) (a0 a1 a2 : Option Attrs)
    (la : Option Attrs) (lcs : Option (List Token)) (gs rest : List Token) :
    (_convert_list_item (Token.mk "list_item" r0 a0
        (some (Token.mk "block_text" r1 a1 (some gs) :: rest))) =
      _convert_list_item (Token.mk "list_item" r0 a0
        (some (Token.mk "paragraph" r2 a2 (some gs) :: rest))))
    ∧ (∀ content tail, _convert_inlines gs [] = .ok content → _li_children rest = .ok tail →
        content ≠ [] →
        _convert_list_item (Token.mk "list_item" r0 a0
            (some (Token.mk "block_text" r1 a1 (some gs) :: rest))) =
          .ok (Adf.mk "paragraph" none none none (some content) :: tail))
    ∧ (∀ res tail, _convert_block (Token.mk "list" r1 la lcs) = .ok res →
        _li_children rest = .ok tail →
        ∃ n, res = some n ∧ (n.type = "bulletList" ∨ n.type = "orderedList") ∧
          _convert_list_item (Token.mk "list_item" r0 a0
              (some (Token.mk "list" r1 la lcs :: rest))) =
            .ok (n :: tail)) := by
  refine ⟨?_, ?_, ?_⟩
  · rw [list_item_eq, list_item_eq, li_block_text, li_paragraph]
  · intro content tail h1 h2 h3
    rw [list_item_eq, li_block_text, h1, h2]
    have hne : content.isEmpty = false := by
      cases content with
      | nil => exact absurd rfl h3
      | cons a l => rfl
    simp only [hne]
    rfl
  · intro res tail h1 h2
    obtain ⟨n, hres, htype⟩ := convert_block_list_shape r1 la lcs res h1
    subst hres
    refine ⟨n, rfl, htype, ?_⟩
    rw [list_item_eq, li_block_child "list" r1 la lcs rest (by decide) (by decide), h1, h2]
    rfl

theorem claim_C5_witness :
    (_convert_list_item (Token.mk "list_item" none none
        (some [Token.mk "block_text" none none (some [Token.mk "text" (some "a") none none])])) =
      .ok [Adf.mk "paragraph" none none none (some [Adf.mk "text" (some "a") none none none])])
    ∧ (_convert_list_item (Token.mk "list_item" none none
        (some [Token.mk "list" none (some (Attrs.mk none none none none)) (some [])])) =
      .ok [Adf.mk "bulletList" none none none (some [])]) := by
  constructor
  · exact (claim_C5_list_item none none none none none none none (some [])
      [Token.mk "text" (some "a") none none] []).2.1
      [Adf.mk "text" (some "a") none none none] []
      (by simp only [inlines_text, inlines_nil]; rfl) li_nil (by simp)
  · have h := (claim_C5_list_item none none none none none none
      (some (Attrs.mk none none none none)) (some []) [] []).2.2
      (some (Adf.mk "bulletList" none none none (some []))) []
      (by simp only [block_list, list_items_nil]; rfl) li_nil
    obtain ⟨n, hn, _, heq⟩ := h
    injection hn with hn'
    rw [hn']
    exact heq

theorem head_cells_types : ∀ (cellToks : List Token) (cells : List Adf),
    _head_cells cellToks = .ok cells → ∀ c ∈ cells, c.type = "tableHeader" := by
  intro cellToks
  induction cellToks with
  | nil =>
    intro cells h
    rw [hcells_nil] at h
    injection h with h'
    subst h'
    intro c hc
    simp at hc
  | cons t rest ih =>
    obtain ⟨ty, raw, attrs, gch⟩ := t
    intro cells h
    cases gch with
    | none => cases raw <;> cases attrs <;> simp [_head_cells] at h
    | some gs =>
      rw [hcells_cons] at h
      cases h1 : _convert_inlines gs [] with
      | error e => rw [h1] at h; exact absurd h (by simp)
      | ok cc =>
        rw [h1] at h
        cases h2 : _head_cells rest with
        | error e => rw [h2] at h; exact absurd h (by simp)
        | ok tail =>
          rw [h2] at h
          simp only [Except.ok.injEq] at h
          subst h
          intro c hc
          rcases List.mem_cons.mp hc with rfl | hc'
          · rfl
          · exact ih tail h2 c hc'

theorem body_cells_types : ∀ (cellToks : List Token) (cells : List Adf),
    _body_cells cellToks = .ok cells → ∀ c ∈ cells, c.type = "tableCell" := by
  intro cellToks
  induction cellToks with
  | nil =>
    intro cells h
    rw [bcells_nil] at h
    injection h with h'
    subst h'
    intro c hc
    simp at hc
  | cons t rest ih =>
    obtain ⟨ty, raw, attrs, gch⟩ := t
    intro cells h
    cases gch with
    | none => cases raw <;> cases attrs <;> simp [_body_cells] at h
    | some gs =>
      rw [bcells_cons] at h
      cases h1 : _convert_inlines gs [] with
      | error e => rw [h1] at h; exact absurd h (by simp)
      | ok cc =>
        rw [h1] at h
        cases h2 : _body_cells rest with
        | error e => rw [h2] at h; exact absurd h (by simp)
        | ok tail =>
          rw [h2] at h
          simp only [Except.ok.injEq] at h
          subst h
          intro c hc
          rcases List.mem_cons.mp hc with rfl | hc'
          · rfl
          · exact ih tail h2 c hc'

theorem body_rows_shape : ∀ (rowToks : List Token) (brs : List Adf),
    _body_rows rowToks = .ok brs →
    brs.length = rowToks.length ∧
      ∀ r ∈ brs, r.type = "tableRow" ∧ ∀ cl ∈ r.content.getD [], cl.type = "tableCell" := by
  intro rowToks
  induction rowToks with
  | nil =>
    intro brs h
    rw [brows_nil] at h
    injection h with h'
    subst h'
    exact ⟨rfl, by intro r hr; simp at hr⟩
  | cons t rest ih =>
    obtain ⟨ty, raw, attrs, gch⟩ := t
    intro brs h
    cases gch with
    | none => cases raw <;> cases attrs <;> simp [_body_rows] at h
    | some cellToks =>
      rw [brows_cons] at h
      cases h1 : _body_cells cellToks with
      | error e => rw [h1] at h; exact absurd h (by simp)
      | ok cells =>
        rw [h1] at h
        cases h2 : _body_rows rest with
        | error e => rw [h2] at h; exact absurd h (by simp)
        | ok tail =>
          rw [h2] at h
          simp only [Except.ok.injEq] at h
          subst h
          obtain ⟨ihl, ihr⟩ := ih tail h2
          refine ⟨by simp [ihl], ?_⟩
          intro r hr
          rcases List.mem_cons.mp hr with rfl | hr'
          · refine ⟨rfl, ?_⟩
            intro cl hcl
            simp only [Adf.content, Option.getD] at hcl
            exact body_cells_types cellToks cells h1 cl hcl
          · exact ihr r hr'

/-- Claim C7: a table token whose children are the expected single
table_head container followed by a single table_body container emits a
table node whose content is the header row first and then the data rows in
source order, one emitted row per source row, with no sorting; the header
row holds tableHeader cells and the data rows hold tableCell cells. -/
theorem claim_C7_table (r0 rh rb : Option String) (a0 ah ab : Option Attrs)
    (hcellToks rowToks : List Token) :
    (_convert_table (Token.mk "table" r0 a0
        (some [Token.mk "table_head" rh ah (some hcellToks),
               Token.mk "table_body" rb ab (some rowToks)])) =
      match _head_cells hcellToks with
      | .error e => .error e
      | .ok cells =>
        match _body_rows rowToks with
        | .error e => .error e
        | .ok brs =>
          .ok (Adf.mk "table" none none none
                (some (Adf.mk "tableRow" none none none (some cells) :: brs))))
    ∧ (∀ cells, _head_cells hcellToks = .ok cells → ∀ c ∈ cells, c.type = "tableHeader")
    ∧ (∀ brs, _body_rows rowToks = .ok brs →
        brs.length = rowToks.length ∧
          ∀ r ∈ brs, r.type = "tableRow" ∧ ∀ cl ∈ r.content.getD [], cl.type = "tableCell") := by
  refine ⟨?_, fun cells h => head_cells_types hcellToks cells h,
    fun brs h => body_rows_shape rowToks brs h⟩
  rw [table_eq, trows_head]
  cases h1 : _head_cells hcellToks with
  | error e => rfl
  | ok cells =>
    rw [trows_body]
    cases h2 : _body_rows rowToks with
    | error e => rfl
    | ok brs =>
      rw [trows_nil]
      simp

theorem claim_C7_witness :
    _convert_table (Token.mk "table" none none
        (some [Token.mk "table_head" none none
                 (some [Token.mk "hc" none none (some [Token.mk "text" (some "h") none none])]),
               Token.mk "table_body" none none
                 (some [Token.mk "row" none none
                          (some [Token.mk "bc" none none (some [Token.mk "text" (some "d") none none])])])])) =
      .ok (Adf.mk "table" none none none (some
            [Adf.mk "tableRow" none none none (some
              [Adf.mk "tableHeader" none none none (some
                [Adf.mk "paragraph" none none none (some
                  [Adf.mk "text" (some "h") none none none])])]),
             Adf.mk "tableRow" none none none (some
              [Adf.mk "tableCell" none none none (some
                [Adf.mk "paragraph" none none none (some
                  [Adf.mk "text" (some "d") none none none])])])])) := by
  have h := (claim_C7_table none none none none none none
    [Token.mk "hc" none none (some [Token.mk "text" (some "h") none none])]
    [Token.mk "row" none none
       (some [Token.mk "bc" none none (some [Token.mk "text" (some "d") none none])])]).1
  rw [h]
  simp only [hcells_cons, hcells_nil, brows_cons, brows_nil, bcells_cons, bcells_nil,
    inlines_text, inlines_nil]
  rfl

/-!
Missing-key equations (the KeyError arms) and accessor-conditioned variants
of the branch equations, shaped to match the hypotheses offered by the
functional induction principles of the converter functions.
-/

theorem inlines_text_err (attrs : Option Attrs) (children : Option (List Token))
    (rest : List Token) (ms : List Mark) :
    _convert_inlines (Token.mk "text" none attrs children :: rest) ms = .error "KeyError" := by
  cases attrs <;> cases children <;> simp [_convert_inlines]

theorem inlines_strong_err (raw : Option String) (attrs : Option Attrs)
    (rest : List Token) (ms : List Mark) :
    _convert_inlines (Token.mk "strong" raw attrs none :: rest) ms = .error "KeyError" := by
  cases raw <;> cases attrs <;> simp [_convert_inlines]

theorem inlines_emphasis_err (raw : Option String) (attrs : Option Attrs)
    (rest : List Token) (ms : List Mark) :
    _convert_inlines (Token.mk "emphasis" raw attrs none :: rest) ms = .error "KeyError" := by
  cases raw <;> cases attrs <;> simp [_convert_inlines]

theorem inlines_strikethrough_err (raw : Option String) (attrs : Option Attrs)
    (rest : List Token) (ms : List Mark) :
    _convert_inlines (Token.mk "strikethrough" raw attrs none :: rest) ms = .error "KeyError" := by
  cases raw <;> cases attrs <;> simp [_convert_inlines]

theorem inlines_link_attrs_err (raw : Option String) (children : Option (List Token))
    (rest : List Token) (ms : List Mark) :
    _convert_inlines (Token.mk "link" raw none children :: rest) ms = .error "KeyError" := by
  cases raw <;> cases children <;> simp [_convert_inlines]

theorem inlines_link_url_err (raw : Option String) (a : Attrs) (hu : a.url = none)
    (children : Option (List Token)) (rest : List Token) (ms : List Mark) :
    _convert_inlines (Token.mk "link" raw (some a) children :: rest) ms = .error "KeyError" := by
  cases raw <;> cases children <;> simp [_convert_inlines, hu]

theorem inlines_link_children_err (raw : Option String) (a : Attrs) (u : String)
    (hu : a.url = some u) (rest : List Token) (ms : List Mark) :
    _convert_inlines (Token.mk "link" raw (some a) none :: rest) ms = .error "KeyError" := by
  cases raw <;> simp [_convert_inlines, hu]

theorem inlines_link_acc (raw : Option String) (a : Attrs) (u : String) (hu : a.url = some u)
    (cs rest : List Token) (ms : List Mark) :
    _convert_inlines (Token.mk "link" raw (some a) (some cs) :: rest) ms =
      match _convert_inlines cs (ms ++ [Mark.mk "link" (some u)]) with
      | .error e => .error e
      | .ok inner =>
        match _convert_inlines rest ms with
        | .error e => .error e
        | .ok tail => .ok (inner ++ tail) := by
  cases raw <;> simp [_convert_inlines, hu]

theorem inlines_image_attrs_err (raw : Option String) (children : Option (List Token))
    (rest : List Token) (ms : List Mark) :
    _convert_inlines (Token.mk "image" raw none children :: rest) ms = .error "KeyError" := by
  cases raw <;> cases children <;> simp [_convert_inlines]

theorem inlines_image_url_err (raw : Option String) (a : Attrs) (hu : a.url = none)
    (children : Option (List Token)) (rest : List Token) (ms : List Mark) :
    _convert_inlines (Token.mk "image" raw (some a) children :: rest) ms = .error "KeyError" := by
  cases raw <;> cases children <;> simp [_convert_inlines, hu]

theorem imageAlt_none (u : String) : imageAlt none u = .ok u := rfl

theorem imageAlt_nil (u : String) : imageAlt (some []) u = .ok u := rfl

theorem imageAlt_cons (c : Token) (more : List Token) (u : String) :
    imageAlt (some (c :: more)) u =
      match c.raw with
      | some alt => .ok alt
      | none => .error "KeyError" := rfl

theorem inlines_image_acc (raw : Option String) (a : Attrs) (u : String)
    (hu : a.url = some u) (children : Option (List Token)) (rest : List Token) (ms : List Mark) :
    _convert_inlines (Token.mk "image" raw (some a) children :: rest) ms =
      match imageAlt children u with
      | .error e => .error e
      | .ok alt =>
        match _convert_inlines rest ms with
        | .error e => .error e
        | .ok tail =>
          .ok (Adf.mk "text" (some alt) (some (ms ++ [Mark.mk "link" (some u)])) none none :: tail) := by
  cases raw <;> cases children <;> simp [_convert_inlines, hu, imageAlt]

theorem inlines_codespan_err (attrs : Option Attrs) (children : Option (List Token))
    (rest : List Token) (ms : List Mark) :
    _convert_inlines (Token.mk "codespan" none attrs children :: rest) ms = .error "KeyError" := by
  cases attrs <;> cases children <;> simp [_convert_inlines]

theorem inlines_unknown9 (ty : String) (raw : Option String) (attrs : Option Attrs)
    (children : Option (List Token)) (rest : List Token) (ms : List Mark)
    (h1 : ¬ty = "text") (h2 : ¬ty = "strong") (h3 : ¬ty = "emphasis")
    (h4 : ¬ty = "strikethrough") (h5 : ¬ty = "link") (h6 : ¬ty = "image")
    (h7 : ¬ty = "codespan") (h8 : ¬ty = "softbreak") (h9 : ¬ty = "linebreak") :
    _convert_inlines (Token.mk ty raw attrs children :: rest) ms = _convert_inlines rest ms := by
  cases raw <;> cases attrs <;> cases children <;>
    simp [_convert_inlines, h1, h2, h3, h4, h5, h6, h7, h8, h9]

theorem block_paragraph_err (raw : Option String) (attrs : Option Attrs) :
    _convert_block (Token.mk "paragraph" raw attrs none) = .error "KeyError" := by
  cases raw <;> cases attrs <;> simp [_convert_block]

theorem block_heading_attrs_err (raw : Option String) (children : Option (List Token)) :
    _convert_block (Token.mk "heading" raw none children) = .error "KeyError" := by
  cases raw <;> cases children <;> simp [_convert_block]

theorem block_heading_level_err (raw : Option String) (a : Attrs) (hl : a.level = none)
    (children : Option (List Token)) :
    _convert_block (Token.mk "heading" raw (some a) children) = .error "KeyError" := by
  cases raw <;> cases children <;> simp [_convert_block, hl]

theorem block_heading_children_err (raw : Option String) (a : Attrs) (level : Int)
    (hl : a.level = some level) :
    _convert_block (Token.mk "heading" raw (some a) none) = .error "KeyError" := by
  cases raw <;> simp [_convert_block, hl]

theorem block_heading_acc (raw : Option String) (a : Attrs) (level : Int)
    (hl : a.level = some level) (cs : List Token) :
    _convert_block (Token.mk "heading" raw (some a) (some cs)) =
      match _convert_inlines cs [] with
      | .error e => .error e
      | .ok content =>
        .ok (some (Adf.mk "heading" none none (some (AdfAttrs.mk (some level) none))
              (if content.isEmpty then none else some content))) := by
  cases raw <;> simp [_convert_block, hl]

theorem block_quote_err (raw : Option String) (attrs : Option Attrs) :
    _convert_block (Token.mk "block_quote" raw attrs none) = .error "KeyError" := by
  cases raw <;> cases attrs <;> simp [_convert_block]

theorem block_list_attrs_err (raw : Option String) (children : Option (List Token)) :
    _convert_block (Token.mk "list" raw none children) = .error "KeyError" := by
  cases raw <;> cases children <;> simp [_convert_block]

theorem block_list_children_err (raw : Option String) (a : Attrs) :
    _convert_block (Token.mk "list" raw (some a) none) = .error "KeyError" := by
  cases raw <;> simp [_convert_block]

theorem block_unknown7 (ty : String) (raw : Option String) (attrs : Option Attrs)
    (children : Option (List Token))
    (h1 : ¬ty = "paragraph") (h2 : ¬ty = "heading") (h3 : ¬ty = "block_code")
    (h4 : ¬ty = "block_quote") (h5 : ¬ty = "list") (h6 : ¬ty = "thematic_break")
    (h7 : ¬ty = "table") :
    _convert_block (Token.mk ty raw attrs children) = .ok none := by
  cases raw <;> cases attrs <;> cases children <;>
    simp [_convert_block, h1, h2, h3, h4, h5, h6, h7]

theorem list_item_none (ty : String) (raw : Option String) (attrs : Option Attrs) :
    _convert_list_item (Token.mk ty raw attrs none) = .error "KeyError" := by
  simp [_convert_list_item]

theorem li_block_text_err (raw : Option String) (attrs : Option Attrs) (rest : List Token) :
    _li_children (Token.mk "block_text" raw attrs none :: rest) = .error "KeyError" := by
  cases raw <;> cases attrs <;> simp [_li_children]

theorem li_paragraph_err (raw : Option String) (attrs : Option Attrs) (rest : List Token) :
    _li_children (Token.mk "paragraph" raw attrs none :: rest) = .error "KeyError" := by
  cases raw <;> cases attrs <;> simp [_li_children]

theorem table_none_err (ty : String) (raw : Option String) (attrs : Option Attrs) :
    _convert_table (Token.mk ty raw attrs none) = .error "KeyError" := by
  simp [_convert_table]

theorem trows_head_err (raw : Option String) (attrs : Option Attrs) (rest : List Token) :
    _table_rows (Token.mk "table_head" raw attrs none :: rest) = .error "KeyError" := by
  cases raw <;> cases attrs <;> simp [_table_rows]

theorem trows_body_err (raw : Option String) (attrs : Option Attrs) (rest : List Token) :
    _table_rows (Token.mk "table_body" raw attrs none :: rest) = .error "KeyError" := by
  cases raw <;> cases attrs <;> simp [_table_rows]

theorem hcells_err (ty : String) (raw : Option String) (attrs : Option Attrs)
    (rest : List Token) :
    _head_cells (Token.mk ty raw attrs none :: rest) = .error "KeyError" := by
  simp [_head_cells]

theorem bcells_err (ty : String) (raw : Option String) (attrs : Option Attrs)
    (rest : List Token) :
    _body_cells (Token.mk ty raw attrs none :: rest) = .error "KeyError" := by
  simp [_body_cells]

theorem brows_err (ty : String) (raw : Option String) (attrs : Option Attrs)
    (rest : List Token) :
    _body_rows (Token.mk ty raw attrs none :: rest) = .error "KeyError" := by
  simp [_body_rows]

/-- Normalization check on an optional marks field: the key may be absent,
but when present its sequence must be non-empty. -/
def marksPresentOk : Option (List Mark) → Bool
  | some l => !l.isEmpty
  | none => true

mutual

/-- Every node of the tree satisfies the marks normalization rule. -/
def adfMarksOk : Adf → Bool
  | .mk _ _ marks _ content => marksPresentOk marks && contentOk content
termination_by a => sizeOf a

/-- The recursive check on an optional content field. -/
def contentOk : Option (List Adf) → Bool
  | some cs => adfsMarksOk cs
  | none => true
termination_by c => sizeOf c

def adfsMarksOk : List Adf → Bool
  | [] => true
  | a :: rest => adfMarksOk a && adfsMarksOk rest
termination_by l => sizeOf l

end

theorem adfMarksOk_mk (ty : String) (tx : Option String) (marks : Option (List Mark))
    (attrs : Option AdfAttrs) (content : Option (List Adf)) :
    adfMarksOk (Adf.mk ty tx marks attrs content) =
      (marksPresentOk marks && contentOk content) := by
  rw [adfMarksOk.eq_def]

theorem contentOk_none : contentOk none = true := by
  rw [contentOk.eq_def]

theorem contentOk_some (cs : List Adf) : contentOk (some cs) = adfsMarksOk cs := by
  rw [contentOk.eq_def]

theorem adfsMarksOk_nil : adfsMarksOk [] = true := by
  simp [adfsMarksOk]

theorem adfsMarksOk_cons (a : Adf) (rest : List Adf) :
    adfsMarksOk (a :: rest) = (adfMarksOk a && adfsMarksOk rest) := by
  simp [adfsMarksOk]

theorem adfsMarksOk_append (xs ys : List Adf) :
    adfsMarksOk (xs ++ ys) = (adfsMarksOk xs && adfsMarksOk ys) := by
  induction xs with
  | nil => simp [adfsMarksOk_nil]
  | cons a l ih => simp [adfsMarksOk_cons, ih, Bool.and_assoc]

theorem marksPresentOk_guard (ms : List Mark) :
    marksPresentOk (if ms.isEmpty then none else some ms) = true := by
  cases ms <;> simp [marksPresentOk]

theorem marksPresentOk_append_one (ms : List Mark) (m : Mark) :
    marksPresentOk (some (ms ++ [m])) = true := by
  simp [marksPresentOk]

theorem marksPresentOk_guard2 (ms : List Mark) :
    marksPresentOk (if ms = [] then none else some ms) = true := by
  cases ms <;> simp [marksPresentOk]

theorem marksPresentOk_none : marksPresentOk none = true := rfl

theorem inlines_marks_ok (cs : List Token) (ms : List Mark) :
    ∀ out, _convert_inlines cs ms = .ok out → adfsMarksOk out = true := by
  induction cs, ms using _convert_inlines.induct
  all_goals intro out hout
  all_goals simp_all [inlines_nil, inlines_text, inlines_strong, inlines_emphasis,
    inlines_strikethrough, inlines_link_acc, inlines_image_acc, inlines_codespan, inlines_softbreak,
    inlines_linebreak, inlines_text_err, inlines_strong_err, inlines_emphasis_err,
    inlines_strikethrough_err, inlines_link_attrs_err, inlines_link_url_err,
    inlines_link_children_err, inlines_image_attrs_err, inlines_image_url_err,
    inlines_codespan_err, inlines_unknown9]
  all_goals subst out
  all_goals simp_all [adfMarksOk_mk, adfsMarksOk_nil, adfsMarksOk_cons, adfsMarksOk_append,
    contentOk_none, contentOk_some, marksPresentOk_guard, marksPresentOk_guard2,
    marksPresentOk_append_one, marksPresentOk_none]

theorem contentOk_guard (c : Prop) [Decidable c] (content : List Adf)
    (h : adfsMarksOk content = true) :
    contentOk (if c then none else some content) = true := by
  by_cases hc : c <;> simp [hc, contentOk_none, contentOk_some, h]

theorem adfsMarksOk_ite_toList (c : Prop) [Decidable c] (n : Adf) (h : adfMarksOk n = true) :
    adfsMarksOk ((if c then none else some n).toList) = true := by
  by_cases hc : c <;> simp [hc, adfsMarksOk_nil, adfsMarksOk_cons, h]

theorem adfsMarksOk_ite_singleton (c : Prop) [Decidable c] (n : Adf) (h : adfMarksOk n = true) :
    adfsMarksOk (if c then [] else [n]) = true := by
  by_cases hc : c <;> simp [hc, adfsMarksOk_nil, adfsMarksOk_cons, h]

theorem hcells_marks_ok : ∀ (cellToks : List Token) (cells : List Adf),
    _head_cells cellToks = .ok cells → adfsMarksOk cells = true := by
  intro cellToks
  induction cellToks with
  | nil =>
    intro cells h
    rw [hcells_nil] at h
    injection h with h'
    subst h'
    exact adfsMarksOk_nil
  | cons t rest ih =>
    obtain ⟨ty, raw, attrs, gch⟩ := t
    intro cells h
    cases gch with
    | none => cases raw <;> cases attrs <;> simp [_head_cells] at h
    | some gs =>
      rw [hcells_cons] at h
      cases h1 : _convert_inlines gs [] with
      | error e => rw [h1] at h; exact absurd h (by simp)
      | ok cc =>
        rw [h1] at h
        cases h2 : _head_cells rest with
        | error e => rw [h2] at h; exact absurd h (by simp)
        | ok tail =>
          rw [h2] at h
          simp only [Except.ok.injEq] at h
          subst h
          simp [adfsMarksOk_cons, adfMarksOk_mk, marksPresentOk_none, contentOk_some,
            contentOk_none, adfsMarksOk_nil, ih tail h2, inlines_marks_ok gs [] cc h1,
            marksPresentOk]
  
theorem bcells_marks_ok : ∀ (cellToks : List Token) (cells : List Adf),
    _body_cells cellToks = .ok cells → adfsMarksOk cells = true := by
  intro cellToks
  induction cellToks with
  | nil =>
    intro cells h
    rw [bcells_nil] at h
    injection h with h'
    subst h'
    exact adfsMarksOk_nil
  | cons t rest ih =>
    obtain ⟨ty, raw, attrs, gch⟩ := t
    intro cells h
    cases gch with
    | none => cases raw <;> cases attrs <;> simp [_body_cells] at h
    | some gs =>
      rw [bcells_cons] at h
      cases h1 : _convert_inlines gs [] with
      | error e => rw [h1] at h; exact absurd h (by simp)
      | ok cc =>
        rw [h1] at h
        cases h2 : _body_cells rest with
        | error e => rw [h2] at h; exact absurd h (by simp)
        | ok tail =>
          rw [h2] at h
          simp only [Except.ok.injEq] at h
          subst h
          simp [adfsMarksOk_cons, adfMarksOk_mk, marksPresentOk_none, contentOk_some,
            contentOk_none, adfsMarksOk_nil, ih tail h2, inlines_marks_ok gs [] cc h1,
            marksPresentOk]

theorem brows_marks_ok : ∀ (rowToks : List Token) (brs : List Adf),
    _body_rows rowToks = .ok brs → adfsMarksOk brs = true := by
  intro rowToks
  induction rowToks with
  | nil =>
    intro brs h
    rw [brows_nil] at h
    injection h with h'
    subst h'
    exact adfsMarksOk_nil
  | cons t rest ih =>
    obtain ⟨ty, raw, attrs, gch⟩ := t
    intro brs h
    cases gch with
    | none => cases raw <;> cases attrs <;> simp [_body_rows] at h
    | some cellToks =>
      rw [brows_cons] at h
      cases h1 : _body_cells cellToks with
      | error e => rw [h1] at h; exact absurd h (by simp)
      | ok cells =>
        rw [h1] at h
        cases h2 : _body_rows rest with
        | error e => rw [h2] at h; exact absurd h (by simp)
        | ok tail =>
          rw [h2] at h
          simp only [Except.ok.injEq] at h
          subst h
          simp [adfsMarksOk_cons, adfMarksOk_mk, marksPresentOk_none, contentOk_some,
            ih tail h2, bcells_marks_ok cellToks cells h1, marksPresentOk]

theorem trows_marks_ok : ∀ (cs : List Token) (rows : List Adf),
    _table_rows cs = .ok rows → adfsMarksOk rows = true := by
  intro cs
  induction cs with
  | nil =>
    intro rows h
    rw [trows_nil] at h
    injection h with h'
    subst h'
    exact adfsMarksOk_nil
  | cons t rest ih =>
    obtain ⟨ty, raw, attrs, gch⟩ := t
    intro rows h
    by_cases hh : ty = "table_head"
    · subst hh
      cases gch with
      | none => cases raw <;> cases attrs <;> simp [_table_rows] at h
      | some cellToks =>
        rw [trows_head] at h
        cases h1 : _head_cells cellToks with
        | error e => rw [h1] at h; exact absurd h (by simp)
        | ok cells =>
          rw [h1] at h
          cases h2 : _table_rows rest with
          | error e => rw [h2] at h; exact absurd h (by simp)
          | ok tail =>
            rw [h2] at h
            simp only [Except.ok.injEq] at h
            subst h
            simp [adfsMarksOk_cons, adfMarksOk_mk, marksPresentOk_none, contentOk_some,
              ih tail h2, hcells_marks_ok cellToks cells h1, marksPresentOk]
    · by_cases hb : ty = "table_body"
      · subst hb
        cases gch with
        | none => cases raw <;> cases attrs <;> simp [_table_rows] at h
        | some rowToks =>
          rw [trows_body] at h
          cases h1 : _body_rows rowToks with
          | error e => rw [h1] at h; exact absurd h (by simp)
          | ok rws =>
            rw [h1] at h
            cases h2 : _table_rows rest with
            | error e => rw [h2] at h; exact absurd h (by simp)
            | ok tail =>
              rw [h2] at h
              simp only [Except.ok.injEq] at h
              subst h
              simp [adfsMarksOk_append, ih tail h2, brows_marks_ok rowToks rws h1]
      · rw [trows_skip ty raw attrs gch rest hh hb] at h
        exact ih rows h

theorem table_marks_ok (t : Token) (node : Adf) (h : _convert_table t = .ok node) :
    adfMarksOk node = true := by
  obtain ⟨ty, raw, attrs, children⟩ := t
  cases children with
  | none => rw [table_none_err] at h; exact absurd h (by simp)
  | some cs =>
    rw [table_eq] at h
    cases h1 : _table_rows cs with
    | error e => rw [h1] at h; exact absurd h (by simp)
    | ok rows =>
      rw [h1] at h
      injection h with h'
      subst h'
      simp [adfMarksOk_mk, marksPresentOk_none, contentOk_some, trows_marks_ok cs rows h1,
        marksPresentOk]

theorem block_family_marks_ok :
    (∀ ts : List Token, ∀ out, _convert_blocks ts = .ok out → adfsMarksOk out = true)
    ∧ (∀ t : Token, ∀ res, _convert_block t = .ok res → adfsMarksOk res.toList = true)
    ∧ (∀ ts : List Token, ∀ out, _list_items ts = .ok out → adfsMarksOk out = true)
    ∧ (∀ t : Token, ∀ out, _convert_list_item t = .ok out → adfsMarksOk out = true)
    ∧ (∀ ts : List Token, ∀ out, _li_children ts = .ok out → adfsMarksOk out = true) := by
  apply _convert_blocks.mutual_induct
    (fun ts => ∀ out, _convert_blocks ts = .ok out → adfsMarksOk out = true)
    (fun t => ∀ res, _convert_block t = .ok res → adfsMarksOk res.toList = true)
    (fun ts => ∀ out, _list_items ts = .ok out → adfsMarksOk out = true)
    (fun t => ∀ out, _convert_list_item t = .ok out → adfsMarksOk out = true)
    (fun ts => ∀ out, _li_children ts = .ok out → adfsMarksOk out = true)
  all_goals intros
  all_goals simp_all [blocks_nil, blocks_cons, block_paragraph, block_heading_acc,
    block_code_eq, block_quote_eq, block_list, block_thematic, block_table, block_unknown7,
    block_paragraph_err, block_heading_attrs_err, block_heading_level_err,
    block_heading_children_err, block_quote_err, block_list_attrs_err, block_list_children_err,
    list_items_nil, list_items_cons, list_item_eq, list_item_none, li_nil, li_block_text,
    li_paragraph, li_block_child, li_block_text_err, li_paragraph_err,
    adfMarksOk_mk, adfsMarksOk_nil, adfsMarksOk_cons, adfsMarksOk_append,
    contentOk_none, contentOk_some, contentOk_guard, adfsMarksOk_ite_toList,
    adfsMarksOk_ite_singleton, marksPresentOk_none,
    inlines_marks_ok, table_marks_ok]
  all_goals subst_vars
  all_goals try simp_all [adfMarksOk_mk, adfsMarksOk_nil, adfsMarksOk_cons, adfsMarksOk_append,
    contentOk_none, contentOk_some, marksPresentOk_none, marksPresentOk, inlines_marks_ok]
  all_goals
    first
    | exact table_marks_ok _ _ (by assumption)
    | (apply adfsMarksOk_ite_toList
       try simp_all [adfMarksOk_mk, adfsMarksOk_nil, adfsMarksOk_cons, contentOk_some,
         contentOk_none, marksPresentOk_none]
       try solve_by_elim [inlines_marks_ok])
    | (apply adfsMarksOk_ite_singleton
       try simp_all [adfMarksOk_mk, adfsMarksOk_nil, adfsMarksOk_cons, contentOk_some,
         contentOk_none, marksPresentOk_none]
       try solve_by_elim [inlines_marks_ok])
    | (apply contentOk_guard
       try solve_by_elim [inlines_marks_ok])

/-- Claim C4: in every document the converter produces, a marks field is
present only when its sequence is non-empty (never stored empty); in
particular a text leaf, and a leaf produced from a soft break, flattened
under the empty accumulated mark context carries no marks key at all. -/
theorem claim_C4_marks_invariant :
    (∀ (parse : String → List Token) (s : String) (d : Doc),
        convert parse s = .ok d → adfsMarksOk d.content = true)
    ∧ (∀ (r : String) (attrs : Option Attrs) (children : Option (List Token))
        (rest : List Token),
        _convert_inlines (Token.mk "text" (some r) attrs children :: rest) [] =
          match _convert_inlines rest [] with
          | .error e => .error e
          | .ok tail => .ok (Adf.mk "text" (some r) none none none :: tail))
    ∧ (∀ (raw : Option String) (attrs : Option Attrs) (children : Option (List Token))
        (rest : List Token),
        _convert_inlines (Token.mk "softbreak" raw attrs children :: rest) [] =
          match _convert_inlines rest [] with
          | .error e => .error e
          | .ok tail => .ok (Adf.mk "text" (some " ") none none none :: tail)) := by
  refine ⟨?_, ?_, ?_⟩
  · intro parse s d h
    rw [convert] at h
    split at h
    · injection h with h'
      subst h'
      exact adfsMarksOk_nil
    · cases hb : _convert_blocks (parse s) with
      | error e => rw [hb] at h; exact absurd h (by simp)
      | ok content =>
        rw [hb] at h
        injection h with h'
        subst h'
        exact block_family_marks_ok.1 (parse s) content hb
  · intro r attrs children rest
    rw [inlines_text]
    cases h : _convert_inlines rest [] <;> simp
  · intro raw attrs children rest
    rw [inlines_softbreak]
    cases h : _convert_inlines rest [] <;> simp

theorem claim_C4_witness :
    adfsMarksOk [Adf.mk "paragraph" none none none
      (some [Adf.mk "text" (some "hi") none none none])] = true :=
  claim_C4_marks_invariant.1
    (fun _ => [Token.mk "paragraph" none none (some [Token.mk "text" (some "hi") none none])])
    "x"
    (Doc.mk 1 "doc" [Adf.mk "paragraph" none none none
      (some [Adf.mk "text" (some "hi") none none none])])
    (by
      rw [convert, if_neg]
      · simp only [blocks_cons, blocks_nil, block_paragraph, inlines_text, inlines_nil]
        rfl
      · decide)

mutual

/-- Well-formedness of an inline token, section 3 shapes: each recognized
type carries the fields its conversion reads (raw for text and codespan, a
child sequence for formatting containers, a URL for link and image, a raw
payload on the first image child when one exists); unrecognized types need
nothing. -/
def wf_inline : Token → Bool
  | Token.mk ty raw attrs children =>
    if ty = "text" then raw.isSome
    else if ty = "strong" then
      match children with
      | some cs => wf_inlines cs
      | none => false
    else if ty = "emphasis" then
      match children with
      | some cs => wf_inlines cs
      | none => false
    else if ty = "strikethrough" then
      match children with
      | some cs => wf_inlines cs
      | none => false
    else if ty = "link" then
      (match attrs with
       | some a => a.url.isSome
       | none => false) &&
      (match children with
       | some cs => wf_inlines cs
       | none => false)
    else if ty = "image" then
      (match attrs with
       | some a => a.url.isSome
       | none => false) &&
      (match children.getD [] with
       | [] => true
       | c :: _ => c.raw.isSome)
    else if ty = "codespan" then raw.isSome
    else true
termination_by t => sizeOf t

def wf_inlines : List Token → Bool
  | [] => true
  | t :: rest => wf_inline t && wf_inlines rest
termination_by l => sizeOf l

end

mutual

/-- Well-formedness of a block token: each recognized type carries the
fields its conversion reads; unrecognized types need nothing. -/
def wf_block : Token → Bool
  | Token.mk ty _ attrs children =>
    if ty = "paragraph" then
      match children with
      | some cs => wf_inlines cs
      | none => false
    else if ty = "heading" then
      (match attrs with
       | some a => a.level.isSome
       | none => false) &&
      (match children with
       | some cs => wf_inlines cs
       | none => false)
    else if ty = "block_code" then true
    else if ty = "block_quote" then
      match children with
      | some cs => wf_blocks cs
      | none => false
    else if ty = "list" then
      attrs.isSome &&
      (match children with
       | some cs => wf_list_children cs
       | none => false)
    else if ty = "thematic_break" then true
    else if ty = "table" then
      match children with
      | some cs => wf_table_children cs
      | none => false
    else true
termination_by t => sizeOf t

def wf_blocks : List Token → Bool
  | [] => true
  | t :: rest => wf_block t && wf_blocks rest
termination_by l => sizeOf l

def wf_list_children : List Token → Bool
  | [] => true
  | Token.mk ty _ _ children :: rest =>
    (if ty = "list_item" then
      match children with
      | some gs => wf_li_children gs
      | none => false
     else true) && wf_list_children rest
termination_by l => sizeOf l

def wf_li_children : List Token → Bool
  | [] => true
  | Token.mk ty raw attrs children :: rest =>
    (if ty = "block_text" then
      match children with
      | some gs => wf_inlines gs
      | none => false
     else if ty = "paragraph" then
      match children with
      | some gs => wf_inlines gs
      | none => false
     else wf_block (Token.mk ty raw attrs children)) && wf_li_children rest
termination_by l => sizeOf l

def wf_table_children : List Token → Bool
  | [] => true
  | Token.mk ty _ _ children :: rest =>
    (if ty = "table_head" then
      match children with
      | some cellToks => wf_cells cellToks
      | none => false
     else if ty = "table_body" then
      match children with
      | some rowToks => wf_rows rowToks
      | none => false
     else true) && wf_table_children rest
termination_by l => sizeOf l

def wf_cells : List Token → Bool
  | [] => true
  | Token.mk _ _ _ children :: rest =>
    (match children with
     | some gs => wf_inlines gs
     | none => false) && wf_cells rest
termination_by l => sizeOf l

def wf_rows : List Token → Bool
  | [] => true
  | Token.mk _ _ _ children :: rest =>
    (match children with
     | some cellToks => wf_cells cellToks
     | none => false) && wf_rows rest
termination_by l => sizeOf l

end

theorem wf_inlines_nil : wf_inlines [] = true := by
  rw [wf_inlines.eq_def]

theorem wf_inlines_cons (t : Token) (rest : List Token) :
    wf_inlines (t :: rest) = (wf_inline t && wf_inlines rest) := by
  rw [wf_inlines.eq_def]

theorem wf_inline_mk (ty : String) (raw : Option String) (attrs : Option Attrs)
    (children : Option (List Token)) :
    wf_inline (Token.mk ty raw attrs children) =
      (if ty = "text" then raw.isSome
       else if ty = "strong" then
         match children with
         | some cs => wf_inlines cs
         | none => false
       else if ty = "emphasis" then
         match children with
         | some cs => wf_inlines cs
         | none => false
       else if ty = "strikethrough" then
         match children with
         | some cs => wf_inlines cs
         | none => false
       else if ty = "link" then
         (match attrs with
          | some a => a.url.isSome
          | none => false) &&
         (match children with
          | some cs => wf_inlines cs
          | none => false)
       else if ty = "image" then
         (match attrs with
          | some a => a.url.isSome
          | none => false) &&
         (match children.getD [] with
          | [] => true
          | c :: _ => c.raw.isSome)
       else if ty = "codespan" then raw.isSome
       else true) := by
  rw [wf_inline.eq_def]

theorem imageAlt_err_absurd (children : Option (List Token)) (u e : String)
    (h : (match children.getD [] with
          | [] => true
          | c :: _ => c.raw.isSome) = true) :
    (imageAlt children u = .error e) = False := by
  simp only [eq_iff_iff, iff_false]
  intro habs
  rw [imageAlt] at habs
  cases hg : children.getD [] with
  | nil => rw [hg] at habs h; exact absurd habs (by simp)
  | cons c more =>
    rw [hg] at habs h
    cases hr : c.raw with
    | none => simp [hr] at h
    | some alt => simp [hr] at habs

theorem inlines_total (cs : List Token) (ms : List Mark) :
    wf_inlines cs = true → (_convert_inlines cs ms).isOk = true := by
  induction cs, ms using _convert_inlines.induct
  all_goals intro hwf
  all_goals simp_all [inlines_nil, inlines_text, inlines_strong, inlines_emphasis,
    inlines_strikethrough, inlines_link_acc, inlines_image_acc, inlines_codespan,
    inlines_softbreak, inlines_linebreak, inlines_text_err, inlines_strong_err,
    inlines_emphasis_err, inlines_strikethrough_err, inlines_link_attrs_err,
    inlines_link_url_err, inlines_link_children_err, inlines_image_attrs_err,
    inlines_image_url_err, inlines_codespan_err, inlines_unknown9,
    wf_inline_mk, wf_inlines_nil, wf_inlines_cons, imageAlt_err_absurd,
    Except.isOk, Except.toBool]

theorem wf_blocks_nil : wf_blocks [] = true := by
  rw [wf_blocks.eq_def]

theorem wf_blocks_cons (t : Token) (rest : List Token) :
    wf_blocks (t :: rest) = (wf_block t && wf_blocks rest) := by
  rw [wf_blocks.eq_def]

theorem wf_block_mk (ty : String) (raw : Option String) (attrs : Option Attrs)
    (children : Option (List Token)) :
    wf_block (Token.mk ty raw attrs children) =
      (if ty = "paragraph" then
        match children with
        | some cs => wf_inlines cs
        | none => false
       else if ty = "heading" then
        (match attrs with
         | some a => a.level.isSome
         | none => false) &&
        (match children with
         | some cs => wf_inlines cs
         | none => false)
       else if ty = "block_code" then true
       else if ty = "block_quote" then
        match children with
        | some cs => wf_blocks cs
        | none => false
       else if ty = "list" then
        attrs.isSome &&
        (match children with
         | some cs => wf_list_children cs
         | none => false)
       else if ty = "thematic_break" then true
       else if ty = "table" then
        match children with
        | some cs => wf_table_children cs
        | none => false
       else true) := by
  rw [wf_block.eq_def]

theorem wf_list_children_nil : wf_list_children [] = true := by
  rw [wf_list_children.eq_def]

theorem wf_list_children_item (c : Token) (rest : List Token) (hty : c.type = "list_item") :
    wf_list_children (c :: rest) =
      ((match c.children with
        | some gs => wf_li_children gs
        | none => false) && wf_list_children rest) := by
  obtain ⟨ty, raw, attrs, children⟩ := c
  simp only [Token.type] at hty
  subst hty
  rw [wf_list_children.eq_def]
  simp [Token.children]

theorem wf_list_children_skip (c : Token) (rest : List Token) (hty : ¬c.type = "list_item") :
    wf_list_children (c :: rest) = wf_list_children rest := by
  obtain ⟨ty, raw, attrs, children⟩ := c
  simp only [Token.type] at hty
  rw [wf_list_children.eq_def]
  simp [hty]

theorem wf_li_children_nil : wf_li_children [] = true := by
  rw [wf_li_children.eq_def]

theorem wf_li_children_cons (ty : String) (raw : Option String) (attrs : Option Attrs)
    (children : Option (List Token)) (rest : List Token) :
    wf_li_children (Token.mk ty raw attrs children :: rest) =
      ((if ty = "block_text" then
         match children with
         | some gs => wf_inlines gs
         | none => false
        else if ty = "paragraph" then
         match children with
         | some gs => wf_inlines gs
         | none => false
        else wf_block (Token.mk ty raw attrs children)) && wf_li_children rest) := by
  rw [wf_li_children.eq_def]

theorem wf_table_children_nil : wf_table_children [] = true := by
  rw [wf_table_children.eq_def]

theorem wf_table_children_cons (ty : String) (raw : Option String) (attrs : Option Attrs)
    (children : Option (List Token)) (rest : List Token) :
    wf_table_children (Token.mk ty raw attrs children :: rest) =
      ((if ty = "table_head" then
         match children with
         | some cellToks => wf_cells cellToks
         | none => false
        else if ty = "table_body" then
         match children with
         | some rowToks => wf_rows rowToks
         | none => false
        else true) && wf_table_children rest) := by
  rw [wf_table_children.eq_def]

theorem wf_cells_nil : wf_cells [] = true := by
  rw [wf_cells.eq_def]

theorem wf_cells_cons (ty : String) (raw : Option String) (attrs : Option Attrs)
    (children : Option (List Token)) (rest : List Token) :
    wf_cells (Token.mk ty raw attrs children :: rest) =
      ((match children with
        | some gs => wf_inlines gs
        | none => false) && wf_cells rest) := by
  rw [wf_cells.eq_def]

theorem wf_rows_nil : wf_rows [] = true := by
  rw [wf_rows.eq_def]

theorem wf_rows_cons (ty : String) (raw : Option String) (attrs : Option Attrs)
    (children : Option (List Token)) (rest : List Token) :
    wf_rows (Token.mk ty raw attrs children :: rest) =
      ((match children with
        | some cellToks => wf_cells cellToks
        | none => false) && wf_rows rest) := by
  rw [wf_rows.eq_def]

theorem inlines_err_absurd (cs : List Token) (ms : List Mark) (e : String)
    (h : wf_inlines cs = true) :
    (_convert_inlines cs ms = .error e) = False := by
  simp only [eq_iff_iff, iff_false]
  intro habs
  have ht := inlines_total cs ms h
  rw [habs] at ht
  simp [Except.isOk, Except.toBool] at ht

theorem cells_total : ∀ cellToks : List Token,
    wf_cells cellToks = true → (_head_cells cellToks).isOk = true := by
  intro cellToks
  induction cellToks with
  | nil => intro h; rw [hcells_nil]; rfl
  | cons t rest ih =>
    obtain ⟨ty, raw, attrs, gch⟩ := t
    intro hwf
    rw [wf_cells_cons] at hwf
    simp only [Bool.and_eq_true] at hwf
    obtain ⟨h1, h2⟩ := hwf
    cases gch with
    | none => simp at h1
    | some gs =>
      rw [hcells_cons]
      have hconv := inlines_total gs [] h1
      cases hc : _convert_inlines gs [] with
      | error e => rw [hc] at hconv; simp [Except.isOk, Except.toBool] at hconv
      | ok cc =>
        have hrest := ih h2
        cases hr : _head_cells rest with
        | error e => rw [hr] at hrest; simp [Except.isOk, Except.toBool] at hrest
        | ok tail => rfl

theorem bcells_total : ∀ cellToks : List Token,
    wf_cells cellToks = true → (_body_cells cellToks).isOk = true := by
  intro cellToks
  induction cellToks with
  | nil => intro h; rw [bcells_nil]; rfl
  | cons t rest ih =>
    obtain ⟨ty, raw, attrs, gch⟩ := t
    intro hwf
    rw [wf_cells_cons] at hwf
    simp only [Bool.and_eq_true] at hwf
    obtain ⟨h1, h2⟩ := hwf
    cases gch with
    | none => simp at h1
    | some gs =>
      rw [bcells_cons]
      have hconv := inlines_total gs [] h1
      cases hc : _convert_inlines gs [] with
      | error e => rw [hc] at hconv; simp [Except.isOk, Except.toBool] at hconv
      | ok cc =>
        have hrest := ih h2
        cases hr : _body_cells rest with
        | error e => rw [hr] at hrest; simp [Except.isOk, Except.toBool] at hrest
        | ok tail => rfl

theorem brows_total : ∀ rowToks : List Token,
    wf_rows rowToks = true → (_body_rows rowToks).isOk = true := by
  intro rowToks
  induction rowToks with
  | nil => intro h; rw [brows_nil]; rfl
  | cons t rest ih =>
    obtain ⟨ty, raw, attrs, gch⟩ := t
    intro hwf
    rw [wf_rows_cons] at hwf
    simp only [Bool.and_eq_true] at hwf
    obtain ⟨h1, h2⟩ := hwf
    cases gch with
    | none => simp at h1
    | some cellToks =>
      rw [brows_cons]
      have hconv := bcells_total cellToks h1
      cases hc : _body_cells cellToks with
      | error e => rw [hc] at hconv; simp [Except.isOk, Except.toBool] at hconv
      | ok cells =>
        have hrest := ih h2
        cases hr : _body_rows rest with
        | error e => rw [hr] at hrest; simp [Except.isOk, Except.toBool] at hrest
        | ok tail => rfl

theorem tchildren_total : ∀ cs : List Token,
    wf_table_children cs = true → (_table_rows cs).isOk = true := by
  intro cs
  induction cs with
  | nil => intro h; rw [trows_nil]; rfl
  | cons t rest ih =>
    obtain ⟨ty, raw, attrs, gch⟩ := t
    intro hwf
    rw [wf_table_children_cons] at hwf
    simp only [Bool.and_eq_true] at hwf
    obtain ⟨h1, h2⟩ := hwf
    by_cases hh : ty = "table_head"
    · subst hh
      simp only [reduceIte] at h1
      cases gch with
      | none => simp at h1
      | some cellToks =>
        rw [trows_head]
        have hconv := cells_total cellToks h1
        cases hc : _head_cells cellToks with
        | error e => rw [hc] at hconv; simp [Except.isOk, Except.toBool] at hconv
        | ok cells =>
          have hrest := ih h2
          cases hr : _table_rows rest with
          | error e => rw [hr] at hrest; simp [Except.isOk, Except.toBool] at hrest
          | ok tail => rfl
    · by_cases hb : ty = "table_body"
      · subst hb
        simp only [reduceIte] at h1
        cases gch with
        | none => simp at h1
        | some rowToks =>
          rw [trows_body]
          have hconv := brows_total rowToks h1
          cases hc : _body_rows rowToks with
          | error e => rw [hc] at hconv; simp [Except.isOk, Except.toBool] at hconv
          | ok rws =>
            have hrest := ih h2
            cases hr : _table_rows rest with
            | error e => rw [hr] at hrest; simp [Except.isOk, Except.toBool] at hrest
            | ok tail => simp [Except.isOk, Except.toBool]
      · rw [trows_skip ty raw attrs gch rest hh hb]
        exact ih h2

theorem table_err_absurd (ty : String) (raw : Option String) (attrs : Option Attrs)
    (children : Option (List Token)) (e : String)
    (h : (match children with
          | some cs => wf_table_children cs
          | none => false) = true) :
    (_convert_table (Token.mk ty raw attrs children) = .error e) = False := by
  simp only [eq_iff_iff, iff_false]
  intro habs
  cases children with
  | none => simp at h
  | some cs =>
    rw [table_eq] at habs
    have ht := tchildren_total cs h
    cases hr : _table_rows cs with
    | error e2 => rw [hr] at ht; simp [Except.isOk, Except.toBool] at ht
    | ok rows => rw [hr] at habs; exact absurd habs (by simp)

theorem block_family_total :
    (∀ ts : List Token, wf_blocks ts = true → (_convert_blocks ts).isOk = true)
    ∧ (∀ t : Token, wf_block t = true → (_convert_block t).isOk = true)
    ∧ (∀ ts : List Token, wf_list_children ts = true → (_list_items ts).isOk = true)
    ∧ (∀ t : Token, (match t.children with
        | some gs => wf_li_children gs
        | none => false) = true → (_convert_list_item t).isOk = true)
    ∧ (∀ ts : List Token, wf_li_children ts = true → (_li_children ts).isOk = true) := by
  apply _convert_blocks.mutual_induct
    (fun ts => wf_blocks ts = true → (_convert_blocks ts).isOk = true)
    (fun t => wf_block t = true → (_convert_block t).isOk = true)
    (fun ts => wf_list_children ts = true → (_list_items ts).isOk = true)
    (fun t => (match t.children with
       | some gs => wf_li_children gs
       | none => false) = true → (_convert_list_item t).isOk = true)
    (fun ts => wf_li_children ts = true → (_li_children ts).isOk = true)
  all_goals intros
  all_goals simp_all [blocks_nil, blocks_cons, block_paragraph, block_heading_acc, block_code_eq,
    block_quote_eq, block_list, block_thematic, block_table, block_unknown7,
    block_paragraph_err, block_heading_attrs_err, block_heading_level_err,
    block_heading_children_err, block_quote_err, block_list_attrs_err, block_list_children_err,
    list_items_nil, list_items_cons, list_item_eq, list_item_none,
    li_nil, li_block_text, li_paragraph, li_block_child, li_block_text_err, li_paragraph_err,
    wf_blocks_nil, wf_blocks_cons, wf_block_mk, wf_list_children_nil, wf_list_children_item,
    wf_list_children_skip, wf_li_children_nil, wf_li_children_cons,
    inlines_err_absurd, table_err_absurd, Except.isOk, Except.toBool, Token.children, Token.type]

/-- Claim C6: on any input tree conforming to the section 3 node shapes,
formalized by the wf predicates (every recognized node carries the fields
its conversion reads), the conversion completes without error; moreover a
block node whose type tag is not among the recognized variants converts to
nothing, and an unrecognized inline node contributes nothing to the output
of the inline walk: silent omission, never failure. -/
theorem claim_C6_total :
    (∀ (parse : String → List Token) (s : String),
        wf_blocks (parse s) = true → (convert parse s).isOk = true)
    ∧ (∀ (ty : String) (raw : Option String) (attrs : Option Attrs)
        (children : Option (List Token)), ty ∉ blockTypes →
        _convert_block (Token.mk ty raw attrs children) = .ok none)
    ∧ (∀ (ty : String) (raw : Option String) (attrs : Option Attrs)
        (children : Option (List Token)) (rest : List Token) (ms : List Mark),
        ty ∉ inlineTypes →
        _convert_inlines (Token.mk ty raw attrs children :: rest) ms =
          _convert_inlines rest ms) := by
  refine ⟨?_, block_unknown, inlines_unknown⟩
  intro parse s hwf
  rw [convert]
  split
  · rfl
  · have h := block_family_total.1 (parse s) hwf
    cases hb : _convert_blocks (parse s) with
    | error e => rw [hb] at h; simp [Except.isOk, Except.toBool] at h
    | ok content => rfl

theorem claim_C6_witness :
    (wf_blocks [Token.mk "thematic_break" none none none,
        Token.mk "mystery" none none none] = true)
    ∧ ((convert (fun _ => [Token.mk "thematic_break" none none none,
        Token.mk "mystery" none none none]) "x").isOk = true)
    ∧ (_convert_block (Token.mk "mystery" none none none) = .ok none)
    ∧ (_convert_inlines [Token.mk "mystery" none none none] [] =
        _convert_inlines [] []) := by
  refine ⟨?_, ?_, ?_, ?_⟩
  · simp [wf_blocks_cons, wf_blocks_nil, wf_block_mk]
  · exact claim_C6_total.1 _ "x" (by simp [wf_blocks_cons, wf_blocks_nil, wf_block_mk])
  · exact claim_C6_total.2.1 "mystery" none none none (by decide)
  · exact claim_C6_total.2.2 "mystery" none none none [] [] (by decide)

theorem inlines_append : ∀ (xs ys : List Token) (ms : List Mark),
    _convert_inlines (xs ++ ys) ms =
      match _convert_inlines xs ms with
      | .error e => .error e
      | .ok a =>
        match _convert_inlines ys ms with
        | .error e => .error e
        | .ok b => .ok (a ++ b) := by
  intro xs
  induction xs with
  | nil =>
    intro ys ms
    rw [List.nil_append, inlines_nil]
    cases h : _convert_inlines ys ms <;> simp
  | cons t xs ih =>
    intro ys ms
    obtain ⟨ty, raw, attrs, children⟩ := t
    rw [List.cons_append]
    by_cases h1 : ty = "text"
    · subst h1
      cases raw with
      | none => rw [inlines_text_err, inlines_text_err]
      | some r =>
        rw [inlines_text, inlines_text, ih]
        cases hx : _convert_inlines xs ms <;> cases hy : _convert_inlines ys ms <;> simp
    · by_cases h2 : ty = "strong"
      · subst h2
        cases children with
        | none => rw [inlines_strong_err, inlines_strong_err]
        | some cs =>
          rw [inlines_strong, inlines_strong, ih]
          cases hc : _convert_inlines cs (ms ++ [Mark.mk "strong" none]) <;>
            cases hx : _convert_inlines xs ms <;>
              cases hy : _convert_inlines ys ms <;> simp
      · by_cases h3 : ty = "emphasis"
        · subst h3
          cases children with
          | none => rw [inlines_emphasis_err, inlines_emphasis_err]
          | some cs =>
            rw [inlines_emphasis, inlines_emphasis, ih]
            cases hc : _convert_inlines cs (ms ++ [Mark.mk "em" none]) <;>
              cases hx : _convert_inlines xs ms <;>
                cases hy : _convert_inlines ys ms <;> simp
        · by_cases h4 : ty = "strikethrough"
          · subst h4
            cases children with
            | none => rw [inlines_strikethrough_err, inlines_strikethrough_err]
            | some cs =>
              rw [inlines_strikethrough, inlines_strikethrough, ih]
              cases hc : _convert_inlines cs (ms ++ [Mark.mk "strike" none]) <;>
                cases hx : _convert_inlines xs ms <;>
                  cases hy : _convert_inlines ys ms <;> simp
          · by_cases h5 : ty = "link"
            · subst h5
              cases attrs with
              | none => rw [inlines_link_attrs_err, inlines_link_attrs_err]
              | some a =>
                cases hu : a.url with
                | none =>
                  rw [inlines_link_url_err _ a hu, inlines_link_url_err _ a hu]
                | some u =>
                  cases children with
                  | none =>
                    rw [inlines_link_children_err _ a u hu, inlines_link_children_err _ a u hu]
                  | some cs =>
                    rw [inlines_link_acc _ a u hu, inlines_link_acc _ a u hu, ih]
                    cases hc : _convert_inlines cs (ms ++ [Mark.mk "link" (some u)]) <;>
                      cases hx : _convert_inlines xs ms <;>
                        cases hy : _convert_inlines ys ms <;> simp
            · by_cases h6 : ty = "image"
              · subst h6
                cases attrs with
                | none => rw [inlines_image_attrs_err, inlines_image_attrs_err]
                | some a =>
                  cases hu : a.url with
                  | none => rw [inlines_image_url_err _ a hu, inlines_image_url_err _ a hu]
                  | some u =>
                    rw [inlines_image_acc _ a u hu, inlines_image_acc _ a u hu, ih]
                    cases hi : imageAlt children u <;>
                      cases hx : _convert_inlines xs ms <;>
                        cases hy : _convert_inlines ys ms <;> simp
              · by_cases h7 : ty = "codespan"
                · subst h7
                  cases raw with
                  | none => rw [inlines_codespan_err, inlines_codespan_err]
                  | some r =>
                    rw [inlines_codespan, inlines_codespan, ih]
                    cases hx : _convert_inlines xs ms <;>
                      cases hy : _convert_inlines ys ms <;> simp
                · by_cases h8 : ty = "softbreak"
                  · subst h8
                    rw [inlines_softbreak, inlines_softbreak, ih]
                    cases hx : _convert_inlines xs ms <;>
                      cases hy : _convert_inlines ys ms <;> simp
                  · by_cases h9 : ty = "linebreak"
                    · subst h9
                      rw [inlines_linebreak, inlines_linebreak, ih]
                      cases hx : _convert_inlines xs ms <;>
                        cases hy : _convert_inlines ys ms <;> simp
                    · rw [inlines_unknown9 ty raw attrs children _ ms h1 h2 h3 h4 h5 h6 h7 h8 h9,
                        inlines_unknown9 ty raw attrs children _ ms h1 h2 h3 h4 h5 h6 h7 h8 h9]
                      exact ih ys ms

/-- The mark a formatting container token appends to the accumulated
context when the walk enters it: strong, em, strike, or a link mark
carrying the URL; any other token is not a formatting container. -/
def fmtMark : Token → Option Mark
  | Token.mk ty _ attrs _ =>
    if ty = "strong" then some (Mark.mk "strong" none)
    else if ty = "emphasis" then some (Mark.mk "em" none)
    else if ty = "strikethrough" then some (Mark.mk "strike" none)
    else if ty = "link" then
      match attrs with
      | some a =>
        match a.url with
        | some u => some (Mark.mk "link" (some u))
        | none => none
      | none => none
    else none

/-- Chain t anc r holds when the inline tree rooted at t contains a text
leaf with raw payload r whose chain of enclosing formatting ancestors,
from t inward to the leaf, contributes the mark sequence anc in the order
the ancestors are entered, outermost first. -/
inductive Chain : Token → List Mark → String → Prop where
  | leaf (raw : String) (attrs : Option Attrs) (children : Option (List Token)) :
      Chain (Token.mk "text" (some raw) attrs children) [] raw
  | fmt (t : Token) (m : Mark) (cs : List Token) (g : Token) (anc : List Mark) (r : String) :
      fmtMark t = some m → t.children = some cs → g ∈ cs → Chain g anc r →
      Chain t (m :: anc) r

/-- Claim C1: for every sequence of inline source tokens converted under
any accumulated context, every text leaf in it whose formatting-ancestor
chain contributes the marks anc (outermost first) yields an emitted text
InlineNode whose mark sequence is exactly the context followed by anc, so
the mark of an outer ancestor always precedes the mark of an inner one. -/
theorem claim_C1_mark_order :
    ∀ (t : Token) (anc : List Mark) (r : String), Chain t anc r →
    ∀ (cs : List Token), t ∈ cs → ∀ (ms : List Mark) (out : List Adf),
      _convert_inlines cs ms = .ok out →
      Adf.mk "text" (some r)
        (if (ms ++ anc).isEmpty then none else some (ms ++ anc)) none none ∈ out := by
  intro t anc r hchain
  induction hchain with
  | leaf raw attrs children =>
    intro cs hmem ms out hok
    obtain ⟨l, rr, rfl⟩ := List.append_of_mem hmem
    rw [inlines_append] at hok
    cases ha : _convert_inlines l ms with
    | error e => rw [ha] at hok; simp at hok
    | ok a =>
      cases hb : _convert_inlines rr ms with
      | error e => simp only [ha, inlines_text, hb] at hok; simp at hok
      | ok b =>
        simp only [ha, inlines_text, hb, Except.ok.injEq] at hok
        subst hok
        simp only [List.append_nil]
        exact List.mem_append_right a (List.mem_cons_self _ _)
  | fmt t m cs' g anc r hfmt hch hg hchain ih =>
    intro cs hmem ms out hok
    obtain ⟨l, rr, rfl⟩ := List.append_of_mem hmem
    rw [inlines_append] at hok
    cases ha : _convert_inlines l ms with
    | error e => rw [ha] at hok; simp at hok
    | ok a =>
      obtain ⟨ty, raw, attrs, tchildren⟩ := t
      simp only [Token.children] at hch
      subst hch
      by_cases h2 : ty = "strong"
      · subst h2
        simp [fmtMark] at hfmt
        subst hfmt
        cases hin : _convert_inlines cs' (ms ++ [Mark.mk "strong" none]) with
        | error e => simp only [ha, inlines_strong, hin] at hok; simp at hok
        | ok inner =>
          cases hb : _convert_inlines rr ms with
          | error e => simp only [ha, inlines_strong, hin, hb] at hok; simp at hok
          | ok b =>
            simp only [ha, inlines_strong, hin, hb, Except.ok.injEq] at hok
            subst hok
            have hmem2 := ih cs' hg (ms ++ [Mark.mk "strong" none]) inner hin
            rw [List.append_cons ms (Mark.mk "strong" none) anc]
            exact List.mem_append_right a (List.mem_append_left b hmem2)
      · by_cases h3 : ty = "emphasis"
        · subst h3
          simp [fmtMark] at hfmt
          subst hfmt
          cases hin : _convert_inlines cs' (ms ++ [Mark.mk "em" none]) with
          | error e => simp only [ha, inlines_emphasis, hin] at hok; simp at hok
          | ok inner =>
            cases hb : _convert_inlines rr ms with
            | error e => simp only [ha, inlines_emphasis, hin, hb] at hok; simp at hok
            | ok b =>
              simp only [ha, inlines_emphasis, hin, hb, Except.ok.injEq] at hok
              subst hok
              have hmem2 := ih cs' hg (ms ++ [Mark.mk "em" none]) inner hin
              rw [List.append_cons ms (Mark.mk "em" none) anc]
              exact List.mem_append_right a (List.mem_append_left b hmem2)
        · by_cases h4 : ty = "strikethrough"
          · subst h4
            simp [fmtMark] at hfmt
            subst hfmt
            cases hin : _convert_inlines cs' (ms ++ [Mark.mk "strike" none]) with
            | error e => simp only [ha, inlines_strikethrough, hin] at hok; simp at hok
            | ok inner =>
              cases hb : _convert_inlines rr ms with
              | error e => simp only [ha, inlines_strikethrough, hin, hb] at hok; simp at hok
              | ok b =>
                simp only [ha, inlines_strikethrough, hin, hb, Except.ok.injEq] at hok
                subst hok
                have hmem2 := ih cs' hg (ms ++ [Mark.mk "strike" none]) inner hin
                rw [List.append_cons ms (Mark.mk "strike" none) anc]
                exact List.mem_append_right a (List.mem_append_left b hmem2)
          · by_cases h5 : ty = "link"
            · subst h5
              cases attrs with
              | none => simp [fmtMark] at hfmt
              | some a2 =>
                cases hu : a2.url with
                | none => simp [fmtMark, hu] at hfmt
                | some u =>
                  simp [fmtMark, hu] at hfmt
                  subst hfmt
                  cases hin : _convert_inlines cs' (ms ++ [Mark.mk "link" (some u)]) with
                  | error e =>
                    simp only [ha, inlines_link_acc _ a2 u hu, hin] at hok
                    simp at hok
                  | ok inner =>
                    cases hb : _convert_inlines rr ms with
                    | error e =>
                      simp only [ha, inlines_link_acc _ a2 u hu, hin, hb] at hok
                      simp at hok
                    | ok b =>
                      simp only [ha, inlines_link_acc _ a2 u hu, hin, hb,
                        Except.ok.injEq] at hok
                      subst hok
                      have hmem2 := ih cs' hg (ms ++ [Mark.mk "link" (some u)]) inner hin
                      rw [List.append_cons ms (Mark.mk "link" (some u)) anc]
                      exact List.mem_append_right a (List.mem_append_left b hmem2)
            · simp [fmtMark, h2, h3, h4, h5] at hfmt

theorem claim_C1_witness :
    Adf.mk "text" (some "x")
        (some [Mark.mk "strong" none, Mark.mk "em" none]) none none ∈
      [Adf.mk "text" (some "x")
        (some [Mark.mk "strong" none, Mark.mk "em" none]) none none] := by
  have h := claim_C1_mark_order
    (Token.mk "strong" none none
      (some [Token.mk "emphasis" none none
        (some [Token.mk "text" (some "x") none none])]))
    [Mark.mk "strong" none, Mark.mk "em" none] "x"
    (Chain.fmt _ (Mark.mk "strong" none)
      [Token.mk "emphasis" none none (some [Token.mk "text" (some "x") none none])]
      (Token.mk "emphasis" none none (some [Token.mk "text" (some "x") none none]))
      [Mark.mk "em" none] "x" rfl rfl (by simp)
      (Chain.fmt _ (Mark.mk "em" none)
        [Token.mk "text" (some "x") none none]
        (Token.mk "text" (some "x") none none)
        [] "x" rfl rfl (by simp)
        (Chain.leaf "x" none none)))
    [Token.mk "strong" none none
      (some [Token.mk "emphasis" none none
        (some [Token.mk "text" (some "x") none none])])]
    (by simp) [] 
    [Adf.mk "text" (some "x")
      (some [Mark.mk "strong" none, Mark.mk "em" none]) none none]
    (by
      simp only [inlines_strong, inlines_emphasis, inlines_text, inlines_nil]
      rfl)
  exact h
